import Mathlib

/-!
# Shell-Simulator: the execution engine of `A3/shell.c`

A shallow embedding of `execute_cd`, `execute_command`, `execute_nonbuiltin`,
`execute_simple_command` and `execute_complex_command`.

The operating system is modelled from the point of view of one process at a
time: a process has a descriptor table, a working directory and the ordered
record of the calls it has issued.  `fork` yields one continuation per process
it leaves behind (the caller, and the child when creation succeeded), so a
function that may fork returns the list of all processes that run through it,
the calling process first.  Everything the program cannot decide by itself
(which paths exist, whether a process can be created, what `wait` collects,
the contents of uninitialised locals) is a field of `World`.
-/

namespace Shell

/-! ## Constants of the source -/

def MAX_DIRNAME : Nat := 100
def EXIT_FAILURE : Int := 1
def STDIN : Int := 0
def STDOUT : Int := 1
def STDERR : Int := 2

/-! ## Kernel objects -/

/-- Access mode of an `open` call: `O_RDONLY`, or `O_WRONLY | O_APPEND | O_CREAT`. -/
inductive OpenMode
  | rdonly
  | wrAppendCreat
deriving DecidableEq, Repr

/-- What an open descriptor refers to. -/
inductive FileObj
  | tty
  | file (path : String) (mode : OpenMode)
  | pipeRead (id : Nat)
  | pipeWrite (id : Nat)
deriving DecidableEq, Repr

/-- One slot of a descriptor table: the object and the close-on-exec flag. -/
structure Desc where
  obj : FileObj
  cloexec : Bool
deriving DecidableEq, Repr

/-- The calls a process issues, with their return values. -/
inductive Event
  | open_ (path : String) (mode : OpenMode) (ret : Int)
  | fcntl_setfd (fd : Int) (ret : Int)
  | dup2 (oldfd newfd : Int) (ret : Int)
  | close (fd : Int) (ret : Int)
  | pipe (ret : Int)
  | fork (ret : Int)
  | wait (ret : Int)
  | getcwd (ok : Bool)
  | chdir (path : String) (ret : Int)
  | execvp (file : Option String) (argv : List String) (ret : Int)
  | perror (msg : Option String)
  | exit (code : Int)
deriving DecidableEq, Repr

/-- State of one process. `trace` lists the calls this process has issued,
oldest first; a freshly created child starts with an empty one. -/
structure Proc where
  fds : Int → Option Desc
  cwd : String
  trace : List Event

/-- Everything outside the program. -/
structure World where
  /-- Descriptor limit of a process: descriptors are `0 .. nofile - 1`. -/
  nofile : Nat
  /-- Directory lookup: an absolute path text to the canonical name of the
  directory it names, when it names one. -/
  dir : String → Option String
  /-- Whether `open(path, O_RDONLY)` issued in directory `cwd` finds the file. -/
  readable : String → String → Bool
  /-- Whether `open(path, O_WRONLY|O_APPEND|O_CREAT)` in `cwd` can open or create it. -/
  writable : String → String → Bool
  /-- Whether the executable search of `execvp` finds the program. -/
  onPath : String → String → Bool
  /-- Whether a `fork` issued after the given history creates a process. -/
  forkOk : List Event → Bool
  /-- Process id handed to the parent, minus one. -/
  pid : List Event → Nat
  /-- Return value and status word of a `wait` issued after the given history. -/
  reaped : List Event → Int × Int
  /-- Contents of uninitialised automatic variables. -/
  junk : Nat → Int
  /-- Bytes an undefined character buffer holds up to its first zero byte. -/
  staleBuf : List UInt8

/-- How a call ends in one process. -/
inductive Res
  /-- Control is back in the caller with return value `v`. -/
  | ret (v : Int) (p : Proc)
  /-- The process terminated through `exit`; `status` is what a waiting parent sees. -/
  | exited (status : Int) (p : Proc)
  /-- The process image was replaced by `file`. -/
  | execd (file : String) (argv : List String) (p : Proc)
  /-- The process was killed by a memory fault: a null pointer dereferenced,
  or a write past the end of a stack buffer. -/
  | crashed (p : Proc)

def Res.proc : Res → Proc
  | .ret _ p => p
  | .exited _ p => p
  | .execd _ _ p => p
  | .crashed p => p

/-- Sequencing over all processes: those that came back continue with `k`,
those that ended stay as they are. -/
def andThen (rs : List Res) (k : Int → Proc → List Res) : List Res :=
  rs.flatMap fun r =>
    match r with
    | .ret v p => k v p
    | r => [r]

/-! ## System calls -/

def Proc.log (p : Proc) (e : Event) : Proc :=
  { p with trace := p.trace ++ [e] }

/-- Lowest descriptor number not in use, below the limit. -/
def lowestFree (nofile : Nat) (fds : Int → Option Desc) : Option Int :=
  ((List.range nofile).find? fun (n : Nat) => (fds (Int.ofNat n)).isNone).map Int.ofNat

def setFd (fds : Int → Option Desc) (fd : Int) (d : Option Desc) : Int → Option Desc :=
  fun k => if k = fd then d else fds k

/-- Lookup of a descriptor number given by the program: negative numbers and
numbers at or above the limit are never open. -/
def Proc.desc (w : World) (p : Proc) (fd : Int) : Option Desc :=
  if 0 ≤ fd ∧ fd < w.nofile then p.fds fd else none

/-- Whether the file system lets the process open `path` in the given mode. -/
def openAllowed (w : World) (p : Proc) (path : String) : OpenMode → Bool
  | .rdonly => w.readable p.cwd path
  | .wrAppendCreat => w.writable p.cwd path

/-- Call `open(path, flags, ...)`: the lowest free descriptor, or -1. -/
def sys_open (w : World) (path : String) (mode : OpenMode) (p : Proc) : Int × Proc :=
  if openAllowed w p path mode then
    match lowestFree w.nofile p.fds with
    | some fd =>
      (fd, { p with fds := setFd p.fds fd (some ⟨.file path mode, false⟩),
                    trace := p.trace ++ [.open_ path mode fd] })
    | none => (-1, p.log (.open_ path mode (-1)))
  else (-1, p.log (.open_ path mode (-1)))

/-- Call `fcntl(fd, F_SETFD, 1)`; the program never reads its return value,
which the event records. -/
def sys_fcntl_setfd (w : World) (fd : Int) (p : Proc) : Proc :=
  match p.desc w fd with
  | some d =>
    { p with fds := setFd p.fds fd (some { d with cloexec := true }),
             trace := p.trace ++ [.fcntl_setfd fd 0] }
  | none => p.log (.fcntl_setfd fd (-1))

/-- Call `dup2(oldfd, newfd)`; the program never reads its return value,
which the event records. -/
def sys_dup2 (w : World) (oldfd newfd : Int) (p : Proc) : Proc :=
  match p.desc w oldfd with
  | none => p.log (.dup2 oldfd newfd (-1))
  | some d =>
    if 0 ≤ newfd ∧ newfd < w.nofile then
      if oldfd = newfd then p.log (.dup2 oldfd newfd newfd)
      else
        { p with fds := setFd p.fds newfd (some ⟨d.obj, false⟩),
                 trace := p.trace ++ [.dup2 oldfd newfd newfd] }
    else p.log (.dup2 oldfd newfd (-1))

/-- Call `close(fd)`; the program never reads its return value, which the
event records. -/
def sys_close (w : World) (fd : Int) (p : Proc) : Proc :=
  match p.desc w fd with
  | some _ => { p with fds := setFd p.fds fd none, trace := p.trace ++ [.close fd 0] }
  | none => p.log (.close fd (-1))

/-- Call `pipe(pfd)` on an array holding `pfd` before the call: on success the
two lowest free descriptors become the read and the write end and are stored
in the array; on failure the array is left as it was. -/
def sys_pipe (w : World) (pfd : Int × Int) (p : Proc) : Int × (Int × Int) × Proc :=
  match lowestFree w.nofile p.fds with
  | none => (-1, pfd, p.log (.pipe (-1)))
  | some r =>
    let id := p.trace.length
    let fds1 := setFd p.fds r (some ⟨.pipeRead id, false⟩)
    match lowestFree w.nofile fds1 with
    | none => (-1, pfd, p.log (.pipe (-1)))
    | some wr =>
      (0, (r, wr), { p with fds := setFd fds1 wr (some ⟨.pipeWrite id, false⟩),
                            trace := p.trace ++ [.pipe 0] })

/-- Call `fork()`: every process left behind, with the value `fork` returns in it.
The caller comes first; the child has the caller's descriptor table and
working directory. -/
def sys_fork (w : World) (p : Proc) : List (Int × Proc) :=
  if w.forkOk p.trace then
    let pid : Int := (w.pid p.trace : Int) + 1
    [(pid, p.log (.fork pid)), (0, { p with trace := [] })]
  else [(-1, p.log (.fork (-1)))]

/-- Call `wait(&status)`: the return value and the status word. -/
def sys_wait (w : World) (p : Proc) : (Int × Int) × Proc :=
  (w.reaped p.trace, p.log (.wait (w.reaped p.trace).1))

def sys_perror (msg : Option String) (p : Proc) : Proc :=
  p.log (.perror msg)

/-- Call `exit(code)`: the low eight bits of `code` reach the parent. -/
def sys_exit (code : Int) (p : Proc) : Res :=
  .exited (code % 256) (p.log (.exit code))

/-- Bytes of a C string, without the terminating zero byte. -/
def cbytes (s : String) : List UInt8 :=
  s.data.flatMap String.utf8EncodeChar

/-- Call `getcwd(buf, size)`: the bytes the buffer holds afterwards. The call
fails when the name with its terminator needs more than `size` bytes, and the
buffer is then undefined. The program never reads the return value, which
the event records. -/
def sys_getcwd (w : World) (size : Nat) (p : Proc) : List UInt8 × Proc :=
  let ok : Bool := (cbytes p.cwd).length + 1 ≤ size
  (if ok then cbytes p.cwd else w.staleBuf, p.log (.getcwd ok))

/-- The absolute path text a `chdir(path)` looks up: a path not starting with
a slash is taken from the working directory. -/
def chdir_target (p : Proc) (path : String) : String :=
  if path.data.head? = some '/' then path else p.cwd ++ "/" ++ path

/-- Call `chdir(path)`. -/
def sys_chdir (w : World) (path : String) (p : Proc) : Int × Proc :=
  match w.dir (chdir_target p path) with
  | some d => (0, { p with cwd := d, trace := p.trace ++ [.chdir path 0] })
  | none => (-1, p.log (.chdir path (-1)))

/-- Close the descriptors marked close-on-exec. -/
def closeOnExec (fds : Int → Option Desc) : Int → Option Desc :=
  fun k =>
    match fds k with
    | some d => if d.cloexec then none else some d
    | none => none

/-- Call `execvp(file, argv)`: a found program replaces the image, otherwise
the call returns -1. -/
def sys_execvp (w : World) (file : Option String) (argv : List String) (p : Proc) : Res :=
  match file with
  | some f =>
    if w.onPath p.cwd f then
      .execd f argv { p with fds := closeOnExec p.fds,
                             trace := p.trace ++ [.execvp file argv 0] }
    else .ret (-1) (p.log (.execvp file argv (-1)))
  | none => .ret (-1) (p.log (.execvp file argv (-1)))

/-! ## String helpers of libc -/

/-- Function `strncat(dst, src, n)` on a buffer of `cap` bytes: at most `n`
bytes of `src` and a terminator are written after the bytes of `dst`. The
result is `none` when that write runs past the end of the buffer (or an
earlier write already did). -/
def strncat (cap : Nat) (dst : Option (List UInt8)) (src : List UInt8) (n : Nat) :
    Option (List UInt8) :=
  match dst with
  | none => none
  | some d =>
    let r := d ++ src.take n
    if r.length + 1 ≤ cap then some r else none

/-! ## Parser helpers used by the engine -/

/-- Modelled from the spec: `is_relative` is declared in `parser.h` and defined
outside `shell.c`; a path is absolute when it is "relative to root", that is
when it starts with a slash. -/
def is_relative (path : String) : Bool :=
  path.data.head? != some '/'

/-- Modelled from the spec: `is_builtin` is declared in `parser.h` and defined
outside `shell.c`; `builtin_kind` is one of NONE, CD, EXIT, derived from
`tokens[0]`, and `execute_simple_command` compares it with 0, 1 (cd), 2 (exit). -/
def is_builtin (s : String) : Int :=
  if s = "cd" then 1 else if s = "exit" then 2 else 0

/-! ## Data model -/

/-- Struct `simple_command`: `tokens` holds the words before the terminating
null pointer; `in_`, `out`, `err` are the redirection paths (null when absent). -/
structure simple_command where
  in_ : Option String
  out : Option String
  err : Option String
  tokens : List String
  builtin : Int

/-- Struct `command`: a leaf has `scmd` set; an inner node has `scmd` null and
carries the operator and its two sides. -/
inductive command
  | leaf (scmd : simple_command)
  | node (oper : String) (cmd1 cmd2 : command)

/-! ## The engine -/

/-- Contents of the local buffer `char cwd[MAX_DIRNAME]` of `execute_cd` after
the `getcwd` and the two `strncat` calls of its relative branch; `none` when
one of the appends overruns the buffer. -/
def cd_buffer (w : World) (p : Proc) (path : String) : Option (List UInt8) :=
  let cwd := (sys_getcwd w (MAX_DIRNAME - 1) p).1
  let cwd := strncat MAX_DIRNAME (some cwd) (cbytes "/") (MAX_DIRNAME - 1)
  strncat MAX_DIRNAME cwd (cbytes path) (MAX_DIRNAME - 1)

/-- Function `execute_cd(words)`; `none` is the null pointer, a list shorter
than two has the null sentinel at `words[0]` or `words[1]`. An append that
overruns the stack buffer `cwd` kills the process. -/
def execute_cd (w : World) (words : Option (List String)) (p : Proc) : Res :=
  match words with
  | none => .ret EXIT_FAILURE p
  | some [] => .ret EXIT_FAILURE p
  | some [_] => .ret EXIT_FAILURE p
  | some (w0 :: w1 :: _) =>
    if w0 ≠ "cd" then .ret EXIT_FAILURE p
    else if !is_relative w1 then
      let (r, p) := sys_chdir w w1 p
      if r = 0 then .ret 0 p
      else .ret 1 (sys_perror (some w1) p)
    else
      let (cwd, p) := sys_getcwd w (MAX_DIRNAME - 1) p
      let cwd := strncat MAX_DIRNAME (some cwd) (cbytes "/") (MAX_DIRNAME - 1)
      let cwd := strncat MAX_DIRNAME cwd (cbytes w1) (MAX_DIRNAME - 1)
      match cwd with
      | none => .crashed p
      | some _ =>
        let (r, p) := sys_chdir w w1 p
        if r = 0 then .ret 0 p
        else .ret 1 (sys_perror (some w1) p)

/-- Function `execute_command(tokens)`. -/
def execute_command (w : World) (tokens : List String) (p : Proc) : Res :=
  match sys_execvp w tokens.head? tokens p with
  | .ret result p =>
    if result < 0 then .ret result (sys_perror tokens.head? p)
    else .ret result p
  | r => r

/-- The block of `execute_nonbuiltin` guarded by `if (s->in)`: the value of
`filedesc_in` is returned in every process that goes on. -/
def redirect_in (w : World) (s : simple_command) (p : Proc) : List Res :=
  match s.in_ with
  | none => [.ret (w.junk 0) p]
  | some path =>
    let (filedesc_in, p) := sys_open w path .rdonly p
    let p := sys_fcntl_setfd w filedesc_in p
    let p := sys_dup2 w filedesc_in STDIN p
    let p := sys_close w filedesc_in p
    let (_, fd_in, p) := sys_pipe w (w.junk 3, w.junk 4) p
    (sys_fork w p).flatMap fun (pid_in, p) =>
      if pid_in = 0 then
        let p := sys_dup2 w fd_in.2 STDOUT p
        let p := sys_close w fd_in.1 p
        let p := sys_close w fd_in.2 p
        [.ret filedesc_in p]
      else if pid_in > 0 then
        let p := sys_dup2 w fd_in.1 STDIN p
        let p := sys_close w fd_in.2 p
        let p := sys_close w fd_in.1 p
        [.ret filedesc_in p]
      else
        [sys_exit 1 (sys_perror (some "fork") p)]

/-- The block of `execute_nonbuiltin` guarded by `if (s->out)`. -/
def redirect_out (w : World) (s : simple_command) (p : Proc) : List Res :=
  match s.out with
  | none => [.ret (w.junk 1) p]
  | some path =>
    let (filedesc_out, p) := sys_open w path .wrAppendCreat p
    let p := sys_fcntl_setfd w filedesc_out p
    let p := sys_dup2 w filedesc_out STDOUT p
    let p := sys_close w filedesc_out p
    let (_, fd_out, p) := sys_pipe w (w.junk 5, w.junk 6) p
    (sys_fork w p).flatMap fun (pid_out, p) =>
      if pid_out = 0 then
        let p := sys_dup2 w fd_out.1 STDIN p
        let p := sys_close w fd_out.1 p
        let p := sys_close w fd_out.2 p
        [.ret filedesc_out p]
      else if pid_out > 0 then
        let p := sys_dup2 w fd_out.2 STDOUT p
        let p := sys_close w fd_out.1 p
        let p := sys_close w fd_out.2 p
        [.ret filedesc_out p]
      else
        [sys_exit 1 (sys_perror (some "fork") p)]

/-- The block of `execute_nonbuiltin` guarded by `if (s->err)`. -/
def redirect_err (w : World) (s : simple_command) (p : Proc) : List Res :=
  match s.err with
  | none => [.ret (w.junk 2) p]
  | some path =>
    let (filedesc_err, p) := sys_open w path .wrAppendCreat p
    let p := sys_fcntl_setfd w filedesc_err p
    let p := sys_dup2 w filedesc_err STDERR p
    let p := sys_close w filedesc_err p
    let (_, fd_err, p) := sys_pipe w (w.junk 7, w.junk 8) p
    (sys_fork w p).flatMap fun (pid_err, p) =>
      if pid_err = 0 then
        let p := sys_dup2 w fd_err.1 STDIN p
        let p := sys_close w fd_err.1 p
        let p := sys_close w fd_err.2 p
        [.ret filedesc_err p]
      else if pid_err > 0 then
        let p := sys_dup2 w fd_err.2 STDERR p
        let p := sys_close w fd_err.1 p
        let p := sys_close w fd_err.2 p
        [.ret filedesc_err p]
      else
        [sys_exit 1 (sys_perror (some "fork") p)]

/-- The tail of `execute_nonbuiltin`: run the command, and when that comes
back close the three descriptors and return its result. -/
def run_and_close (w : World) (s : simple_command)
    (filedesc_in filedesc_out filedesc_err : Int) (p : Proc) : List Res :=
  match execute_command w s.tokens p with
  | .ret result p =>
    let p := sys_close w filedesc_in p
    let p := sys_close w filedesc_out p
    let p := sys_close w filedesc_err p
    [.ret result p]
  | r => [r]

/-- Function `execute_nonbuiltin(s)`. -/
def execute_nonbuiltin (w : World) (s : simple_command) (p : Proc) : List Res :=
  andThen (redirect_in w s p) fun filedesc_in p =>
    andThen (redirect_out w s p) fun filedesc_out p =>
      andThen (redirect_err w s p) fun filedesc_err p =>
        run_and_close w s filedesc_in filedesc_out filedesc_err p

/-- Function `execute_simple_command(cmd)`. -/
def execute_simple_command (w : World) (cmd : simple_command) (p : Proc) : List Res :=
  let result : Int := 0
  if cmd.builtin ≠ 0 then
    if cmd.builtin = 1 then
      match execute_cd w (some cmd.tokens) p with
      | .ret result p => [.ret result p]
      | r => [r]
    else if cmd.builtin = 2 then
      [sys_exit 0 p]
    else [.ret result p]
  else
    (sys_fork w p).flatMap fun (pid, p) =>
      if pid > 0 then
        let (_, p) := sys_wait w p
        [.ret result p]
      else if pid = 0 then
        andThen (execute_nonbuiltin w cmd p) fun result p => [sys_exit result p]
      else
        [sys_exit 1 (sys_perror (some "fork") p)]

/-- First child of a pipeline node, from the return of `fork` up to the
recursive call. -/
def pipe_left_setup (w : World) (pfd : Int × Int) (p : Proc) : Proc :=
  let p := sys_close w STDOUT p
  let p := sys_close w pfd.1 p
  let p := sys_dup2 w pfd.2 STDOUT p
  p

/-- Second child of a pipeline node, from the return of `fork` up to the
recursive call. -/
def pipe_right_setup (w : World) (pfd : Int × Int) (p : Proc) : Proc :=
  let p := sys_close w pfd.2 p
  let p := sys_close w STDIN p
  let p := sys_dup2 w pfd.1 STDIN p
  p

/-- The process evaluating a pipeline node, after its second `fork`. -/
def pipe_orchestrate (w : World) (pfd : Int × Int) (p : Proc) : Proc :=
  let p := sys_close w pfd.1 p
  let p := sys_close w pfd.2 p
  let (r, p) := sys_wait w p
  let p := if r.1 = -1 then sys_perror (some "wait") p else p
  let (r, p) := sys_wait w p
  let p := if r.1 = -1 then sys_perror (some "wait") p else p
  p

/-- Function `execute_complex_command(c)`. -/
def execute_complex_command (w : World) : command → Proc → List Res
  | .node oper cmd1 cmd2, p =>
    if oper = "|" then
      let (_, pfd, p) := sys_pipe w (w.junk 9, w.junk 10) p
      (sys_fork w p).flatMap fun (pid, p) =>
        if pid = 0 then
          andThen (execute_complex_command w cmd1 (pipe_left_setup w pfd p))
            fun _ p => [sys_exit 0 p]
        else if pid > 0 then
          (sys_fork w p).flatMap fun (pid2, p) =>
            if pid2 = 0 then
              andThen (execute_complex_command w cmd2 (pipe_right_setup w pfd p))
                fun _ p => [sys_exit 0 p]
            else if pid2 > 0 then
              [.ret 0 (pipe_orchestrate w pfd p)]
            else
              [sys_exit 1 (sys_perror (some "fork") p)]
        else
          [sys_exit 1 (sys_perror (some "fork") p)]
    else [.ret 0 p]
  | .leaf scmd, p =>
    match scmd.tokens.head? with
    | none => [.crashed p]
    | some t =>
      if is_builtin t = 0 then
        andThen (execute_nonbuiltin w scmd p) fun _ p => [.ret 0 p]
      else [.ret 0 p]


/-! ## Observations and sample inputs -/

/-- How a call ended, without the process state. -/
inductive Outcome
  | ret (v : Int)
  | exited (status : Int)
  | execd (file : String) (argv : List String)
  | crashed
deriving DecidableEq, Repr

def Res.outcome : Res → Outcome
  | .ret v _ => .ret v
  | .exited s _ => .exited s
  | .execd f a _ => .execd f a
  | .crashed _ => .crashed

def Res.trace (r : Res) : List Event := r.proc.trace

def Event.isExec : Event → Bool
  | .execvp _ _ _ => true
  | _ => false

def Event.isFork : Event → Bool
  | .fork _ => true
  | _ => false

/-- Number of `execvp` calls in a history. -/
def execAttempts (t : List Event) : Nat := t.countP Event.isExec

/-- Number of `execvp` calls over all the processes of a result. -/
def totalExecAttempts (rs : List Res) : Nat := (rs.map fun r => execAttempts r.trace).sum

/-- Number of redirections a simple command carries. -/
def simple_command.redirections (s : simple_command) : Nat :=
  (if s.in_.isSome then 1 else 0) + (if s.out.isSome then 1 else 0)
    + (if s.err.isSome then 1 else 0)

/-- A world with sixteen descriptors per process, one directory `/home/sub`,
the one readable file `in.txt`, every file writable, the one program `ls`, and process
creation always succeeding. -/
def sampleWorld : World where
  nofile := 16
  dir := fun s => if s = "/home/sub" then some "/home/sub" else none
  readable := fun _ f => f == "in.txt"
  writable := fun _ _ => true
  onPath := fun _ f => f == "ls"
  forkOk := fun _ => true
  pid := fun _ => 41
  reaped := fun _ => (42, 0)
  junk := fun _ => 77
  staleBuf := []

/-- The interactive process: the three standard streams on the terminal,
working directory `/home`, no call issued yet. -/
def shellProc : Proc where
  fds := fun k => if 0 ≤ k ∧ k < 3 then some ⟨.tty, false⟩ else none
  cwd := "/home"
  trace := []

/-! ## States and predicates the statements refer to -/

/-- State of a process after a successful `pipe` that handed out `R` and `W`. -/
def afterPipe (p : Proc) (R W : Int) : Proc :=
  { p with
    fds := setFd (setFd p.fds R (some ⟨.pipeRead p.trace.length, false⟩)) W
      (some ⟨.pipeWrite p.trace.length, false⟩),
    trace := p.trace ++ [.pipe 0] }

def Event.isWait : Event → Bool
  | .wait _ => true
  | _ => false

/-- The two `wait` calls of the orchestrator, each followed by a report when
it returned -1, issued after history `t`. -/
def waitEvents (w : World) (t : List Event) : List Event :=
  let r1 := (w.reaped t).1
  let e1 := [Event.wait r1] ++ (if r1 = -1 then [Event.perror (some "wait")] else [])
  let r2 := (w.reaped (t ++ e1)).1
  e1 ++ [Event.wait r2] ++ (if r2 = -1 then [Event.perror (some "wait")] else [])

/-- The descriptor pair `pfd` of a pipeline node once `pipe(pfd)` has run. -/
def pipeFds (w : World) (p : Proc) : Int × Int :=
  (sys_pipe w (w.junk 9, w.junk 10) p).2.1

/-- State in which a child of a pipeline node comes back from `fork`: the
descriptor table and directory the evaluating process had after `pipe`. -/
def pipeChildEntry (w : World) (p : Proc) : Proc :=
  { (sys_pipe w (w.junk 9, w.junk 10) p).2.2 with trace := [] }

/-- Both `fork` calls of the process evaluating a pipeline node create a
process: the one issued right after `pipe`, and the one issued by the parent
after that. -/
def pipeForksOk (w : World) (p : Proc) : Prop :=
  let p1 := (sys_pipe w (w.junk 9, w.junk 10) p).2.2
  w.forkOk p1.trace = true ∧
    w.forkOk (p1.log (.fork ((w.pid p1.trace : Int) + 1))).trace = true

/-- State of the first child when it calls `execute_complex_command(c->cmd1)`. -/
def leftChildAtRecursion (w : World) (p : Proc) : Proc :=
  pipe_left_setup w (pipeFds w p) (pipeChildEntry w p)

/-- State of the second child when it calls `execute_complex_command(c->cmd2)`. -/
def rightChildAtRecursion (w : World) (p : Proc) : Proc :=
  pipe_right_setup w (pipeFds w p) (pipeChildEntry w p)

/-- State of the evaluating process of a pipeline node when it returns. -/
def orchestratorAtReturn (w : World) (p : Proc) : Proc :=
  let p1 := (sys_pipe w (w.junk 9, w.junk 10) p).2.2
  let p2 := p1.log (.fork ((w.pid p1.trace : Int) + 1))
  let p3 := p2.log (.fork ((w.pid p2.trace : Int) + 1))
  pipe_orchestrate w (pipeFds w p) p3

/-- The command `ls`. -/
def lsCmd : simple_command := ⟨none, none, none, ["ls"], 0⟩

/-- The command `wc -l`. -/
def wcCmd : simple_command := ⟨none, none, none, ["wc", "-l"], 0⟩

/-- A command naming a program that is not installed. -/
def nosuchCmd : simple_command := ⟨none, none, none, ["nosuch"], 0⟩

/-- The builtin `exit` as the parser hands it over. -/
def exitCmd : simple_command := ⟨none, none, none, ["exit"], 2⟩

/-- The builtin `cd sub` as the parser hands it over. -/
def cdCmd : simple_command := ⟨none, none, none, ["cd", "sub"], 1⟩

/-- The command `ls < in.txt`. -/
def lsFromFile : simple_command := ⟨some "in.txt", none, none, ["ls"], 0⟩

/-- The command `ls < missing.txt`, whose input file does not exist. -/
def lsFromMissing : simple_command := ⟨some "missing.txt", none, none, ["ls"], 0⟩

/-- The sample world, with `wait` delivering the status word of a child that
called `exit(255)`. -/
def failingChildWorld : World :=
  { sampleWorld with reaped := fun _ => (42, 255 * 256) }

/-- A relative path of 99 bytes, the letter `b` repeated. -/
def longPath : String := String.mk (List.replicate 99 'b')

/-- The interactive process in the directory `/home/aaa...a`, whose name is
the six bytes of `/home/` and then 84 times the letter `a`: 90 bytes. -/
def deepProc : Proc :=
  { shellProc with cwd := String.mk ("/home/".data ++ List.replicate 84 'a') }

/-- The failure cases of `execute_cd`: the array is null, `words[0]` or
`words[1]` is null, `words[0]` is not `cd`, or the directory named by
`words[1]` cannot be entered from the current state. -/
def cdFailureCase (w : World) (words : Option (List String)) (p : Proc) : Prop :=
  words = none ∨
  (∃ l, words = some l ∧ l.length < 2) ∨
  (∃ w0 rest, words = some (w0 :: rest) ∧ w0 ≠ "cd") ∨
  (∃ w0 w1 rest, words = some (w0 :: w1 :: rest) ∧ w.dir (chdir_target p w1) = none)

/-- Every process of the list is back in its caller and has issued no
`execvp` so far. -/
def Quiet (rs : List Res) : Prop :=
  ∀ r ∈ rs, ∃ v q, r = .ret v q ∧ execAttempts q.trace = 0

/-- The process either had its image replaced by the program its first token
names, or is back from `execute_nonbuiltin` with -1 after a failed `execvp`. -/
def RanOrFailed (s : simple_command) (r : Res) : Prop :=
  (∃ f, s.tokens.head? = some f ∧ r.outcome = .execd f s.tokens) ∨ r.outcome = .ret (-1)

/-- The process `q` descends from `p` without having been forked off: same
working directory, and every call `p` had issued is in its history. -/
def Continues (p q : Proc) : Prop :=
  q.cwd = p.cwd ∧ p.trace ⊆ q.trace

/-- Some redirection path of the command is present and cannot be opened in
the mode `execute_nonbuiltin` asks for. -/
def hasUnopenableTarget (w : World) (s : simple_command) (p : Proc) : Prop :=
  (∃ path, s.in_ = some path ∧ openAllowed w p path .rdonly = false) ∨
  (∃ path, s.out = some path ∧ openAllowed w p path .wrAppendCreat = false) ∨
  (∃ path, s.err = some path ∧ openAllowed w p path .wrAppendCreat = false)

/-! ## Facts about the system calls -/

theorem lowestFree_spec {n : Nat} {fds : Int → Option Desc} {r : Int}
    (h : lowestFree n fds = some r) : 0 ≤ r ∧ r < (n : Int) ∧ fds r = none := by
  simp only [lowestFree, Option.map_eq_some', List.find?_range_eq_some, List.mem_range,
    Option.isNone_iff_eq_none, Int.ofNat_eq_coe] at h
  obtain ⟨a, ⟨ha, hlt, _⟩, rfl⟩ := h
  exact ⟨Int.ofNat_nonneg a, Int.ofNat_lt.mpr hlt, ha⟩

theorem sys_fork_ok (w : World) (p : Proc) (h : w.forkOk p.trace = true) :
    sys_fork w p
      = [((w.pid p.trace : Int) + 1, p.log (.fork ((w.pid p.trace : Int) + 1))),
         (0, { p with trace := [] })] := by
  simp [sys_fork, h]

theorem pid_pos (n : Nat) : (0 : Int) < (n : Int) + 1 := by omega

theorem pid_ne_zero (n : Nat) : ((n : Int) + 1 = 0) = False := by
  simp only [eq_iff_iff, iff_false]; omega

theorem sys_pipe_ok (w : World) (pfd : Int × Int) (p : Proc)
    (h : (sys_pipe w pfd p).1 = 0) :
    ∃ R W : Int, (0 ≤ R ∧ R < (w.nofile : Int)) ∧ (0 ≤ W ∧ W < (w.nofile : Int)) ∧ R ≠ W ∧
      p.fds R = none ∧ p.fds W = none ∧
      sys_pipe w pfd p = (0, (R, W), afterPipe p R W) := by
  unfold sys_pipe at h ⊢
  cases h1 : lowestFree w.nofile p.fds with
  | none => simp [h1] at h
  | some R =>
    simp only [h1] at h ⊢
    cases h2 : lowestFree w.nofile
        (setFd p.fds R (some ⟨.pipeRead p.trace.length, false⟩)) with
    | none => simp [h2] at h
    | some W =>
      simp only [h2]
      obtain ⟨hR0, hRn, hRf⟩ := lowestFree_spec h1
      obtain ⟨hW0, hWn, hWf⟩ := lowestFree_spec h2
      have hne : R ≠ W := by
        intro e
        subst e
        simp [setFd] at hWf
      have hWp : p.fds W = none := by
        have : W ≠ R := fun e => hne e.symm
        simpa [setFd, this] using hWf
      exact ⟨R, W, ⟨hR0, hRn⟩, ⟨hW0, hWn⟩, hne, hRf, hWp, rfl⟩

theorem close_both_after_pipe (w : World) (p : Proc) (R W : Int)
    (hR : 0 ≤ R ∧ R < (w.nofile : Int)) (hW : 0 ≤ W ∧ W < (w.nofile : Int)) (hne : R ≠ W)
    (hRf : p.fds R = none) (hWf : p.fds W = none) (t : List Event) :
    sys_close w W (sys_close w R { afterPipe p R W with trace := t })
      = { p with trace := t ++ [.close R 0, .close W 0] } := by
  have hWR : W ≠ R := fun e => hne e.symm
  have e1 : sys_close w R { afterPipe p R W with trace := t }
      = { afterPipe p R W with
          fds := setFd (afterPipe p R W).fds R none, trace := t ++ [.close R 0] } := by
    simp [sys_close, Proc.desc, hR, afterPipe, setFd, hne]
  rw [e1]
  simp only [sys_close, Proc.desc, hW, and_self, if_true, afterPipe, setFd, hWR, if_false,
    List.append_assoc, List.singleton_append]
  congr 1
  funext k
  by_cases hkW : k = W
  · simp [setFd, hkW, hWf]
  · by_cases hkR : k = R
    · simp [setFd, hkR, hRf, hne]
    · simp [setFd, hkW, hkR]

/-- With process creation succeeding, a pipeline node leaves behind the
evaluating process, then the processes of the second child, then those of the
first child; each child runs its side from the state set up for it and then
calls `exit(0)`. -/
theorem pipeline_unfold (w : World) (cmd1 cmd2 : command) (p : Proc)
    (hfork : pipeForksOk w p) :
    execute_complex_command w (.node "|" cmd1 cmd2) p
      = .ret 0 (orchestratorAtReturn w p)
        :: (andThen (execute_complex_command w cmd2 (rightChildAtRecursion w p))
              (fun _ q => [sys_exit 0 q])
            ++ andThen (execute_complex_command w cmd1 (leftChildAtRecursion w p))
              (fun _ q => [sys_exit 0 q])) := by
  obtain ⟨h1, h2⟩ := hfork
  simp only [Proc.log] at h2
  simp only [execute_complex_command, if_true, sys_fork, h1, h2, List.flatMap_cons,
    List.flatMap_nil, pid_pos, pid_ne_zero, if_false, List.append_nil, Proc.log,
    orchestratorAtReturn, rightChildAtRecursion, leftChildAtRecursion, pipeChildEntry, pipeFds]
  simp

theorem waitEvents_count (w : World) (t : List Event) :
    (waitEvents w t).countP Event.isWait = 2 := by
  unfold waitEvents
  by_cases h1 : (w.reaped t).1 = -1 <;>
    by_cases h2 : (w.reaped (t ++ ([Event.wait (w.reaped t).1]
        ++ (if (w.reaped t).1 = -1 then [Event.perror (some "wait")] else [])))).1 = -1 <;>
    simp [h1, h2, List.countP_cons, Event.isWait] at *

theorem wait_twice (w : World) (p : Proc) :
    (let rp := sys_wait w p
     let p1 := if rp.1.1 = -1 then sys_perror (some "wait") rp.2 else rp.2
     let rp2 := sys_wait w p1
     if rp2.1.1 = -1 then sys_perror (some "wait") rp2.2 else rp2.2)
      = { p with trace := p.trace ++ waitEvents w p.trace } := by
  simp only [sys_wait, sys_perror, Proc.log, waitEvents]
  by_cases h1 : (w.reaped p.trace).1 = -1
  · simp only [h1, if_true]
    split <;> rename_i h2 <;> simp at h2 <;> simp [h2]
  · simp only [h1, if_false]
    split <;> rename_i h2 <;> simp [h2]

/-- C4: for a pipeline node with operator "|", when `pipe` and both `fork`
calls succeed, the evaluating process issues, in this order, `pipe`, `fork`,
`fork`, `close(R)`, `close(W)` and then exactly two `wait` calls (a report
follows a `wait` that returned -1): both children exist before the first
wait and both pipe ends are closed between the second fork and the first
wait. It returns 0 with the descriptor table and the working directory it
had on entry. -/
theorem orchestrator_closes_pipe_then_waits_twice (w : World) (cmd1 cmd2 : command)
    (p : Proc) (hfork : pipeForksOk w p)
    (hpipe : (sys_pipe w (w.junk 9, w.junk 10) p).1 = 0) :
    ∃ (q : Proc) (rest : List Res) (pid1 pid2 : Int) (waits : List Event),
      execute_complex_command w (.node "|" cmd1 cmd2) p = .ret 0 q :: rest ∧
      0 < pid1 ∧ 0 < pid2 ∧
      q.trace = p.trace ++ [.pipe 0, .fork pid1, .fork pid2,
          .close (pipeFds w p).1 0, .close (pipeFds w p).2 0] ++ waits ∧
      waits = waitEvents w (p.trace ++ [.pipe 0, .fork pid1, .fork pid2,
          .close (pipeFds w p).1 0, .close (pipeFds w p).2 0]) ∧
      waits.countP Event.isWait = 2 ∧
      waits.countP Event.isFork = 0 ∧
      q.fds = p.fds ∧ q.cwd = p.cwd := by
  obtain ⟨R, W, hR, hW, hne, hRf, hWf, hp⟩ := sys_pipe_ok w _ p hpipe
  let pid1 : Int := (w.pid (p.trace ++ [.pipe 0]) : Int) + 1
  let pid2 : Int := (w.pid (p.trace ++ [.pipe 0, .fork pid1]) : Int) + 1
  let t : List Event := p.trace ++ [.pipe 0, .fork pid1, .fork pid2]
  have hq : orchestratorAtReturn w p
      = { p with trace := (t ++ [.close R 0, .close W 0])
            ++ waitEvents w (t ++ [.close R 0, .close W 0]) } := by
    have h3 : orchestratorAtReturn w p
        = pipe_orchestrate w (R, W) { afterPipe p R W with trace := t } := by
      simp [orchestratorAtReturn, pipeFds, hp, Proc.log, afterPipe, t, pid1, pid2]
    rw [h3]
    unfold pipe_orchestrate
    simp only []
    rw [close_both_after_pipe w p R W hR hW hne hRf hWf t]
    exact wait_twice w _
  have hfd : pipeFds w p = (R, W) := by simp [pipeFds, hp]
  refine ⟨orchestratorAtReturn w p, _, pid1, pid2, _,
    pipeline_unfold w cmd1 cmd2 p hfork, pid_pos _, pid_pos _, ?_, rfl,
    waitEvents_count w _, ?_, ?_, ?_⟩
  · rw [hq, hfd]; simp [t]
  · simp only [waitEvents]
    split <;> split <;> simp [List.countP_cons, Event.isFork]
  · rw [hq]
  · rw [hq]

/-- Witness of C4 in the sample world: `ls | wc -l` from the interactive process. -/
theorem orchestrator_closes_pipe_then_waits_twice_witness :
    ∃ (q : Proc) (rest : List Res),
      execute_complex_command sampleWorld (.node "|" (.leaf lsCmd) (.leaf wcCmd)) shellProc
        = .ret 0 q :: rest ∧
      q.trace = [.pipe 0, .fork 42, .fork 42, .close 3 0, .close 4 0, .wait 42, .wait 42] ∧
      q.fds = shellProc.fds := by
  obtain ⟨q, rest, pid1, pid2, waits, h, _, _, ht, hw, _, _, hf, _⟩ :=
    orchestrator_closes_pipe_then_waits_twice sampleWorld (.leaf lsCmd) (.leaf wcCmd)
      shellProc ⟨rfl, rfl⟩ (by decide)
  refine ⟨q, rest, h, ?_, hf⟩
  have e : execute_complex_command sampleWorld (.node "|" (.leaf lsCmd) (.leaf wcCmd)) shellProc
      = .ret 0 (orchestratorAtReturn sampleWorld shellProc) :: _ :=
    pipeline_unfold sampleWorld _ _ shellProc ⟨rfl, rfl⟩
  rw [e] at h
  injection h with h1 _
  injection h1 with _ h2
  rw [← h2]
  decide

/-- C5: a leaf whose first token is `cd` or `exit` makes
`execute_complex_command` do nothing: one process comes back, the calling
one, in the very state it entered with (no call issued, same descriptors,
same directory, not terminated), and the value returned is 0. -/
theorem builtin_leaf_is_skipped (w : World) (s : simple_command) (p : Proc) (t : String)
    (ht : s.tokens.head? = some t) (hb : t = "cd" ∨ t = "exit") :
    execute_complex_command w (.leaf s) p = [.ret 0 p] := by
  rcases hb with rfl | rfl <;> simp [execute_complex_command, ht, is_builtin]

/-- Witness of C5: `cd sub` as a pipeline stage. -/
theorem builtin_leaf_is_skipped_witness :
    execute_complex_command sampleWorld (.leaf cdCmd) shellProc = [.ret 0 shellProc] :=
  builtin_leaf_is_skipped sampleWorld cdCmd shellProc "cd" rfl (Or.inl rfl)

/-- C10 (as amended): for a node whose operator is not "|",
`execute_complex_command` creates no pipe and no process and issues no call
at all, so nothing is reported, and it returns 0, the value it also returns
for a "|" node. -/
theorem unsupported_operator_is_silent_noop (w : World) (oper : String)
    (cmd1 cmd2 : command) (p : Proc) (h : oper ≠ "|") :
    execute_complex_command w (.node oper cmd1 cmd2) p = [.ret 0 p] := by
  simp [execute_complex_command, h]

/-- Witness of C10 (as amended): the operator `&&`. -/
theorem unsupported_operator_is_silent_noop_witness :
    execute_complex_command sampleWorld (.node "&&" (.leaf lsCmd) (.leaf wcCmd)) shellProc
      = [.ret 0 shellProc] :=
  unsupported_operator_is_silent_noop sampleWorld "&&" _ _ shellProc (by decide)

/-- Counterexample to C10 as stated: `ls && wc -l` comes back with value 0 and
no call issued (no report), and value 0 is also what the evaluating process
of `ls | wc -l` comes back with. -/
theorem unsupported_operator_not_distinguishable :
    (execute_complex_command sampleWorld (.node "&&" (.leaf lsCmd) (.leaf wcCmd)) shellProc).map
        (fun r => (r.outcome, r.trace)) = [(.ret 0, [])] ∧
    ((execute_complex_command sampleWorld (.node "|" (.leaf lsCmd) (.leaf wcCmd)) shellProc).map
        Res.outcome).head? = some (.ret 0) := by
  decide

/-- C8, at the input `exit` with `builtin = 2`: `execute_simple_command` does
not come back with -1; the one process it runs in issues `exit(0)` and is
gone with status 0. -/
theorem exit_builtin_terminates_caller :
    (execute_simple_command sampleWorld exitCmd shellProc).map
        (fun r => (r.outcome, r.trace)) = [(.exited 0, [.exit 0])] := by
  decide

/-- C1 (as amended): for a command with `builtin = 0`, when the `fork`
succeeds, the calling process issues `fork` and one `wait` and returns 0,
whatever status word the `wait` delivered; its descriptors and directory are
untouched. -/
theorem simple_command_parent_returns_zero (w : World) (cmd : simple_command) (p : Proc)
    (hb : cmd.builtin = 0) (hfork : w.forkOk p.trace = true) :
    ∃ (q : Proc) (rest : List Res) (pid : Int),
      execute_simple_command w cmd p = .ret 0 q :: rest ∧ 0 < pid ∧
      q.trace = p.trace ++ [.fork pid, .wait (w.reaped (p.trace ++ [.fork pid])).1] ∧
      q.fds = p.fds ∧ q.cwd = p.cwd := by
  refine ⟨(sys_wait w (p.log (.fork ((w.pid p.trace : Int) + 1)))).2,
    andThen (execute_nonbuiltin w cmd { p with trace := [] })
      (fun result q => [sys_exit result q]),
    (w.pid p.trace : Int) + 1, ?_, pid_pos _, ?_, ?_, ?_⟩
  · simp [execute_simple_command, hb, sys_fork, hfork, pid_pos]
  · simp [sys_wait, Proc.log]
  · simp [sys_wait, Proc.log]
  · simp [sys_wait, Proc.log]

/-- Witness of C1 (as amended): `nosuch` run from the interactive process while
`wait` delivers the status word of `exit(255)`. -/
theorem simple_command_parent_returns_zero_witness :
    ∃ (q : Proc) (rest : List Res),
      execute_simple_command failingChildWorld nosuchCmd shellProc = .ret 0 q :: rest ∧
      q.trace = [.fork 42, .wait 42] := by
  obtain ⟨q, rest, pid, h, _, ht, _, _⟩ :=
    simple_command_parent_returns_zero failingChildWorld nosuchCmd shellProc rfl rfl
  refine ⟨q, rest, h, ?_⟩
  have hpid : pid = 42 := by
    have e : (execute_simple_command failingChildWorld nosuchCmd shellProc).map Res.trace
        = [[.fork 42, .wait 42], [.execvp (some "nosuch") ["nosuch"] (-1),
            .perror (some "nosuch"), .close 77 (-1), .close 77 (-1), .close 77 (-1),
            .exit (-1)]] := by decide
    rw [h] at e
    simp only [List.map_cons, Res.trace, Res.proc, ht, shellProc, List.nil_append] at e
    injection e with e1 _
    injection e1 with e2 _
    injection e2
  rw [ht, hpid]
  rfl

/-- Counterexample to C1 as stated: the child of `nosuch` terminates with
status 255, the `wait` of the parent delivers the status word of that exit,
and the value the parent returns is 0. -/
theorem simple_command_drops_child_status :
    (execute_simple_command failingChildWorld nosuchCmd shellProc).map Res.outcome
        = [.ret 0, .exited 255] ∧
    (failingChildWorld.reaped [.fork 42]).2 = 255 * 256 := by
  decide

theorem desc_isSome {w : World} {p : Proc} {fd : Int} (h : (p.desc w fd).isSome) :
    (0 ≤ fd ∧ fd < (w.nofile : Int)) ∧ ∃ d, p.fds fd = some d := by
  unfold Proc.desc at h
  by_cases hr : 0 ≤ fd ∧ fd < (w.nofile : Int)
  · simp only [hr, and_self, if_true] at h
    exact ⟨hr, Option.isSome_iff_exists.mp h⟩
  · simp [hr] at h

/-- Descriptor table of the first child at its recursive call, after a `pipe`
that handed out `R` and `W`, both different from standard output. -/
theorem left_setup_fds (w : World) (p : Proc) (R W : Int)
    (hR : 0 ≤ R ∧ R < (w.nofile : Int)) (hW : 0 ≤ W ∧ W < (w.nofile : Int)) (hne : R ≠ W)
    (hout : (p.desc w STDOUT).isSome) (hR1 : R ≠ STDOUT) (hW1 : W ≠ STDOUT) :
    (pipe_left_setup w (R, W) { afterPipe p R W with trace := [] }).fds
      = setFd (setFd (afterPipe p R W).fds R none) STDOUT
          (some ⟨.pipeWrite p.trace.length, false⟩) := by
  obtain ⟨h1, d, hd⟩ := desc_isSome hout
  have hWR : W ≠ R := fun e => hne e.symm
  have h1R : STDOUT ≠ R := fun e => hR1 e.symm
  have h1W : STDOUT ≠ W := fun e => hW1 e.symm
  funext k
  simp only [pipe_left_setup, sys_close, sys_dup2, Proc.desc, afterPipe, setFd, h1, hR, hW,
    and_self, if_true, h1R, h1W, hd, hne, hWR, hW1, hR1, if_false, Proc.log]
  by_cases hk1 : k = STDOUT
  · simp [hk1, h1R, h1W]
  · by_cases hkR : k = R
    · simp [hkR, hR1, hne]
    · simp [hk1, hkR]

/-- Descriptor table of the second child at its recursive call, after a `pipe`
that handed out `R` and `W`, both different from standard input. -/
theorem right_setup_fds (w : World) (p : Proc) (R W : Int)
    (hR : 0 ≤ R ∧ R < (w.nofile : Int)) (hW : 0 ≤ W ∧ W < (w.nofile : Int)) (hne : R ≠ W)
    (hin : (p.desc w STDIN).isSome) (hR0 : R ≠ STDIN) (hW0 : W ≠ STDIN) :
    (pipe_right_setup w (R, W) { afterPipe p R W with trace := [] }).fds
      = setFd (setFd (afterPipe p R W).fds W none) STDIN
          (some ⟨.pipeRead p.trace.length, false⟩) := by
  obtain ⟨h0, d, hd⟩ := desc_isSome hin
  have hWR : W ≠ R := fun e => hne e.symm
  have h0R : STDIN ≠ R := fun e => hR0 e.symm
  have h0W : STDIN ≠ W := fun e => hW0 e.symm
  funext k
  simp only [pipe_right_setup, sys_close, sys_dup2, Proc.desc, afterPipe, setFd, h0, hR, hW,
    and_self, if_true, h0R, h0W, hd, hne, hWR, hW0, hR0, if_false, Proc.log]
  by_cases hk0 : k = STDIN
  · simp [hk0, h0R, h0W]
  · by_cases hkW : k = W
    · simp [hkW, hW0, hWR]
    · simp [hk0, hkW]

/-- C3 (as amended): for a pipeline node with operator "|", when `pipe` and the
`fork` calls succeed in a process whose standard input and output are open,
each child runs its side from a state in which the pipe end it does not use
is closed and the end it uses is its standard stream, while its own copy of
that end is still open: the first child has `R` closed and the write end on
both standard output and `W`; the second child has `W` closed and the
read end on both standard input and `R`. Every other descriptor is as the
evaluating process had it. -/
theorem pipe_children_keep_own_copy (w : World) (cmd1 cmd2 : command) (p : Proc)
    (hfork : pipeForksOk w p)
    (hpipe : (sys_pipe w (w.junk 9, w.junk 10) p).1 = 0)
    (hin : (p.desc w STDIN).isSome) (hout : (p.desc w STDOUT).isSome) :
    ∃ (R W : Int) (id : Nat),
      pipeFds w p = (R, W) ∧ R ≠ W ∧ R ≠ STDIN ∧ R ≠ STDOUT ∧ W ≠ STDIN ∧ W ≠ STDOUT ∧
      execute_complex_command w (.node "|" cmd1 cmd2) p
        = .ret 0 (orchestratorAtReturn w p)
          :: (andThen (execute_complex_command w cmd2 (rightChildAtRecursion w p))
                (fun _ q => [sys_exit 0 q])
              ++ andThen (execute_complex_command w cmd1 (leftChildAtRecursion w p))
                (fun _ q => [sys_exit 0 q])) ∧
      (leftChildAtRecursion w p).fds R = none ∧
      (leftChildAtRecursion w p).fds STDOUT = some ⟨.pipeWrite id, false⟩ ∧
      (leftChildAtRecursion w p).fds W = some ⟨.pipeWrite id, false⟩ ∧
      (∀ k, k ≠ R → k ≠ W → k ≠ STDOUT → (leftChildAtRecursion w p).fds k = p.fds k) ∧
      (rightChildAtRecursion w p).fds W = none ∧
      (rightChildAtRecursion w p).fds STDIN = some ⟨.pipeRead id, false⟩ ∧
      (rightChildAtRecursion w p).fds R = some ⟨.pipeRead id, false⟩ ∧
      (∀ k, k ≠ R → k ≠ W → k ≠ STDIN → (rightChildAtRecursion w p).fds k = p.fds k) := by
  obtain ⟨R, W, hR, hW, hne, hRf, hWf, hp⟩ := sys_pipe_ok w _ p hpipe
  obtain ⟨_, d0, hd0⟩ := desc_isSome hin
  obtain ⟨_, d1, hd1⟩ := desc_isSome hout
  have hR0 : R ≠ STDIN := fun e => by rw [e, hd0] at hRf; exact Option.noConfusion hRf
  have hR1 : R ≠ STDOUT := fun e => by rw [e, hd1] at hRf; exact Option.noConfusion hRf
  have hW0 : W ≠ STDIN := fun e => by rw [e, hd0] at hWf; exact Option.noConfusion hWf
  have hW1 : W ≠ STDOUT := fun e => by rw [e, hd1] at hWf; exact Option.noConfusion hWf
  have hWR : W ≠ R := fun e => hne e.symm
  have hfd : pipeFds w p = (R, W) := by simp [pipeFds, hp]
  have hl : (leftChildAtRecursion w p).fds
      = setFd (setFd (afterPipe p R W).fds R none) STDOUT
          (some ⟨.pipeWrite p.trace.length, false⟩) := by
    have e : leftChildAtRecursion w p
        = pipe_left_setup w (R, W) { afterPipe p R W with trace := [] } := by
      simp [leftChildAtRecursion, pipeChildEntry, hfd, hp]
    rw [e]
    exact left_setup_fds w p R W hR hW hne hout hR1 hW1
  have hr : (rightChildAtRecursion w p).fds
      = setFd (setFd (afterPipe p R W).fds W none) STDIN
          (some ⟨.pipeRead p.trace.length, false⟩) := by
    have e : rightChildAtRecursion w p
        = pipe_right_setup w (R, W) { afterPipe p R W with trace := [] } := by
      simp [rightChildAtRecursion, pipeChildEntry, hfd, hp]
    rw [e]
    exact right_setup_fds w p R W hR hW hne hin hR0 hW0
  refine ⟨R, W, p.trace.length, hfd, hne, hR0, hR1, hW0, hW1,
    pipeline_unfold w cmd1 cmd2 p hfork, ?_, ?_, ?_, ?_, ?_, ?_, ?_, ?_⟩
  · rw [hl]; simp [setFd, hR1]
  · rw [hl]; simp [setFd]
  · rw [hl]; simp [setFd, afterPipe, hW1, hWR]
  · intro k hkR hkW hk1
    rw [hl]; simp [setFd, afterPipe, hkR, hkW, hk1]
  · rw [hr]; simp [setFd, hW0]
  · rw [hr]; simp [setFd]
  · rw [hr]; simp [setFd, afterPipe, hR0, hne]
  · intro k hkR hkW hk0
    rw [hr]; simp [setFd, afterPipe, hkR, hkW, hk0]

/-- Witness of C3 (as amended): `ls | wc -l` from the interactive process. -/
theorem pipe_children_keep_own_copy_witness :
    ∃ (R W : Int) (id : Nat), pipeFds sampleWorld shellProc = (R, W) ∧
      (leftChildAtRecursion sampleWorld shellProc).fds R = none ∧
      (leftChildAtRecursion sampleWorld shellProc).fds W = some ⟨.pipeWrite id, false⟩ ∧
      (rightChildAtRecursion sampleWorld shellProc).fds W = none ∧
      (rightChildAtRecursion sampleWorld shellProc).fds R = some ⟨.pipeRead id, false⟩ := by
  obtain ⟨R, W, id, h, _, _, _, _, _, _, l1, _, l3, _, r1, _, r3, _⟩ :=
    pipe_children_keep_own_copy sampleWorld (.leaf lsCmd) (.leaf wcCmd) shellProc
      ⟨rfl, rfl⟩ (by decide) (by decide) (by decide)
  exact ⟨R, W, id, h, l1, l3, r1, r3⟩

/-- Counterexample to C3 as stated: in `ls | wc -l` the pipe is descriptors 3
and 4; the first child enters its side with 4 still open on the write end
(its calls were `close(1)`, `close(3)`, `dup2(4, 1)`), the second child with
3 still open on the read end. -/
theorem pipe_descriptor_left_open_in_children :
    pipeFds sampleWorld shellProc = (3, 4) ∧
    (leftChildAtRecursion sampleWorld shellProc).fds 4 = some ⟨.pipeWrite 0, false⟩ ∧
    (leftChildAtRecursion sampleWorld shellProc).trace
      = [.close 1 0, .close 3 0, .dup2 4 1 1] ∧
    (rightChildAtRecursion sampleWorld shellProc).fds 3 = some ⟨.pipeRead 0, false⟩ ∧
    (rightChildAtRecursion sampleWorld shellProc).trace
      = [.close 4 0, .close 0 0, .dup2 3 0 0] := by
  decide

theorem sys_chdir_none {w : World} {path : String} {p : Proc}
    (h : w.dir (chdir_target p path) = none) :
    sys_chdir w path p = (-1, p.log (.chdir path (-1))) := by
  simp [sys_chdir, h]

theorem sys_chdir_some {w : World} {path : String} {p : Proc} {d : String}
    (h : w.dir (chdir_target p path) = some d) :
    sys_chdir w path p = (0, { p with cwd := d, trace := p.trace ++ [.chdir path 0] }) := by
  simp [sys_chdir, h]

theorem sys_getcwd_cwd (w : World) (n : Nat) (p : Proc) :
    (sys_getcwd w n p).2.cwd = p.cwd := rfl

/-- State in which `execute_cd` calls `chdir`: after the `getcwd` for a
relative path, as on entry for an absolute one. -/
theorem execute_cd_eval (w : World) (w1 : String) (rest : List String) (p : Proc)
    (hfit : is_relative w1 = true → ∃ b, cd_buffer w p w1 = some b) :
    execute_cd w (some ("cd" :: w1 :: rest)) p
      = match w.dir (chdir_target p w1) with
        | some d =>
          .ret 0 { (if is_relative w1 then (sys_getcwd w (MAX_DIRNAME - 1) p).2 else p) with
            cwd := d,
            trace := (if is_relative w1 then (sys_getcwd w (MAX_DIRNAME - 1) p).2
              else p).trace ++ [.chdir w1 0] }
        | none =>
          .ret 1 (sys_perror (some w1)
            ((if is_relative w1 then (sys_getcwd w (MAX_DIRNAME - 1) p).2 else p).log
              (.chdir w1 (-1)))) := by
  cases hrel : is_relative w1 with
  | false =>
    cases hd : w.dir (chdir_target p w1) with
    | none => simp [execute_cd, hrel, sys_chdir_none hd]
    | some d => simp [execute_cd, hrel, sys_chdir_some hd]
  | true =>
    obtain ⟨b, hb⟩ := hfit hrel
    have hb2 : strncat MAX_DIRNAME (strncat MAX_DIRNAME
        (some (sys_getcwd w (MAX_DIRNAME - 1) p).1) (cbytes "/") (MAX_DIRNAME - 1))
        (cbytes w1) (MAX_DIRNAME - 1) = some b := hb
    cases hd : w.dir (chdir_target p w1) with
    | none =>
      have hd2 : w.dir (chdir_target (sys_getcwd w (MAX_DIRNAME - 1) p).2 w1) = none := hd
      simp [execute_cd, hrel, hb2, sys_chdir_none hd2]
    | some d =>
      have hd2 : w.dir (chdir_target (sys_getcwd w (MAX_DIRNAME - 1) p).2 w1) = some d := hd
      simp [execute_cd, hrel, hb2, sys_chdir_some hd2]

/-- Within the buffer, `execute_cd` behaves as its contract says: when no
append of the relative branch overruns `cwd`, every failure case (null
array, `words[0]` or `words[1]` null, `words[0]` not `cd`, directory change
failing) returns a non-zero value with the working directory as on entry,
and a return of 0 means the words were `cd` and a path, the `chdir` on that
path succeeded, and the working directory is the directory found. -/
theorem execute_cd_within_buffer (w : World) (words : Option (List String)) (p : Proc)
    (hfit : ∀ w0 w1 rest, words = some (w0 :: w1 :: rest) → is_relative w1 = true →
      ∃ b, cd_buffer w p w1 = some b) :
    (cdFailureCase w words p →
      ∃ v q, execute_cd w words p = .ret v q ∧ v ≠ 0 ∧ q.cwd = p.cwd) ∧
    (∀ q, execute_cd w words p = .ret 0 q →
      ∃ w1 rest d, words = some ("cd" :: w1 :: rest) ∧
        w.dir (chdir_target p w1) = some d ∧ q.cwd = d ∧ Event.chdir w1 0 ∈ q.trace) := by
  have hone : ∀ q : Proc, Res.ret EXIT_FAILURE p = Res.ret 0 q → False := by
    intro q h
    injection h with h1 _
    exact absurd h1 (by decide)
  match words, hfit with
  | none, _ =>
    exact ⟨fun _ => ⟨_, _, rfl, by decide, rfl⟩, fun q h => (hone q h).elim⟩
  | some [], _ =>
    exact ⟨fun _ => ⟨_, _, rfl, by decide, rfl⟩, fun q h => (hone q h).elim⟩
  | some [a], _ =>
    exact ⟨fun _ => ⟨_, _, rfl, by decide, rfl⟩, fun q h => (hone q h).elim⟩
  | some (w0 :: w1 :: rest), hfit =>
    by_cases h0 : w0 = "cd"
    · subst h0
      rw [execute_cd_eval w w1 rest p (hfit "cd" w1 rest rfl)]
      cases hd : w.dir (chdir_target p w1) with
      | none =>
        refine ⟨fun _ => ⟨_, _, rfl, by decide, ?_⟩, fun q h => ?_⟩
        · cases is_relative w1 <;> rfl
        · injection h with h1 _
          exact absurd h1 (by decide)
      | some d =>
        refine ⟨fun hf => ?_, fun q h => ?_⟩
        · rcases hf with hf | ⟨l, hl, hlen⟩ | ⟨a, r, hl, hne⟩ | ⟨a, b, r, hl, hnone⟩
          · exact Option.noConfusion hf
          · injection hl with hl
            subst hl
            simp only [List.length_cons] at hlen
            omega
          · injection hl with hl
            injection hl with hl1 _
            exact absurd hl1.symm hne
          · injection hl with hl
            injection hl with _ hl2
            injection hl2 with hl3 _
            subst hl3
            rw [hd] at hnone
            exact Option.noConfusion hnone
        · injection h with _ h2
          subst h2
          exact ⟨w1, rest, d, rfl, hd, rfl, by simp⟩
    · have he : execute_cd w (some (w0 :: w1 :: rest)) p = .ret EXIT_FAILURE p := by
        simp [execute_cd, h0]
      rw [he]
      exact ⟨fun _ => ⟨_, _, rfl, by decide, rfl⟩, fun q h => (hone q h).elim⟩

/-- A relative `cd` whose joined path does not fit the buffer never reaches
`chdir`: the process is killed after its `getcwd`. -/
theorem execute_cd_overrun (w : World) (w1 : String) (rest : List String) (p : Proc)
    (hrel : is_relative w1 = true) (hover : cd_buffer w p w1 = none) :
    execute_cd w (some ("cd" :: w1 :: rest)) p
      = .crashed (sys_getcwd w (MAX_DIRNAME - 1) p).2 := by
  have hb2 : strncat MAX_DIRNAME (strncat MAX_DIRNAME
      (some (sys_getcwd w (MAX_DIRNAME - 1) p).1) (cbytes "/") (MAX_DIRNAME - 1))
      (cbytes w1) (MAX_DIRNAME - 1) = none := hover
  simp [execute_cd, hrel, hb2]

set_option maxRecDepth 100000 in
/-- C6, at the input `cd bbb...b` (99 bytes, no such directory) in the
directory `/home/aaa...a` (90 bytes): the path is relative and the directory
change would fail, so the claim promises a non-zero return; but the second
`strncat` writes 91 + 99 + 1 bytes into the 100-byte buffer `cwd`, and the
process is killed before it reaches `chdir` or returns anything. -/
theorem long_relative_cd_overruns_buffer :
    is_relative longPath = true ∧
    cdFailureCase sampleWorld (some ["cd", longPath]) deepProc ∧
    (cbytes deepProc.cwd).length = 90 ∧ (cbytes longPath).length = 99 ∧
    cd_buffer sampleWorld deepProc longPath = none ∧
    (execute_cd sampleWorld (some ["cd", longPath]) deepProc).outcome = .crashed ∧
    (execute_cd sampleWorld (some ["cd", longPath]) deepProc).trace = [.getcwd true] := by
  refine ⟨by decide, ?_, by decide, by decide, by decide, by decide, by decide⟩
  exact Or.inr (Or.inr (Or.inr ⟨"cd", longPath, [], rfl, by decide⟩))

/-- C7, at the input `cd sub` in `/home`: the buffer holds the joined path
`/home/sub`, yet the path handed to `chdir` is the bare `sub`. -/
theorem relative_cd_passes_bare_path :
    is_relative "sub" = true ∧
    cd_buffer sampleWorld shellProc "sub" = some (cbytes "/home/sub") ∧
    (execute_cd sampleWorld (some ["cd", "sub"]) shellProc).trace
      = [.getcwd true, .chdir "sub" 0] ∧
    (execute_cd sampleWorld (some ["cd", "sub"]) shellProc).outcome = .ret 0 := by
  decide

/-! ## Counting `execvp` calls -/

theorem execAttempts_append (t u : List Event) :
    execAttempts (t ++ u) = execAttempts t + execAttempts u := by
  simp [execAttempts, List.countP_append]

theorem execAttempts_log (p : Proc) (e : Event) (h : e.isExec = false) :
    execAttempts (p.log e).trace = execAttempts p.trace := by
  simp [Proc.log, execAttempts, List.countP_append, List.countP_cons, h]

theorem execAttempts_log_fork (p : Proc) (v : Int) :
    execAttempts (p.log (.fork v)).trace = execAttempts p.trace :=
  execAttempts_log p _ rfl

theorem execAttempts_close (w : World) (fd : Int) (p : Proc) :
    execAttempts (sys_close w fd p).trace = execAttempts p.trace := by
  unfold sys_close
  split <;> simp [Proc.log, execAttempts, List.countP_append, List.countP_cons, Event.isExec]

theorem execAttempts_dup2 (w : World) (a b : Int) (p : Proc) :
    execAttempts (sys_dup2 w a b p).trace = execAttempts p.trace := by
  unfold sys_dup2
  split
  · simp [Proc.log, execAttempts, List.countP_append, List.countP_cons, Event.isExec]
  · split
    · split <;>
        simp [Proc.log, execAttempts, List.countP_append, List.countP_cons, Event.isExec]
    · simp [Proc.log, execAttempts, List.countP_append, List.countP_cons, Event.isExec]

theorem execAttempts_fcntl (w : World) (fd : Int) (p : Proc) :
    execAttempts (sys_fcntl_setfd w fd p).trace = execAttempts p.trace := by
  unfold sys_fcntl_setfd
  split <;> simp [Proc.log, execAttempts, List.countP_append, List.countP_cons, Event.isExec]

theorem execAttempts_open (w : World) (path : String) (m : OpenMode) (p : Proc) :
    execAttempts (sys_open w path m p).2.trace = execAttempts p.trace := by
  unfold sys_open
  split
  · split <;>
      simp [Proc.log, execAttempts, List.countP_append, List.countP_cons, Event.isExec]
  · simp [Proc.log, execAttempts, List.countP_append, List.countP_cons, Event.isExec]

theorem execAttempts_pipe (w : World) (pfd : Int × Int) (p : Proc) :
    execAttempts (sys_pipe w pfd p).2.2.trace = execAttempts p.trace := by
  unfold sys_pipe
  split
  · simp [Proc.log, execAttempts, List.countP_append, List.countP_cons, Event.isExec]
  · simp only []
    split <;>
      simp [Proc.log, execAttempts, List.countP_append, List.countP_cons, Event.isExec]

theorem andThen_nil (k : Int → Proc → List Res) : andThen [] k = [] := rfl

theorem andThen_cons_ret (v : Int) (q : Proc) (rs : List Res) (k : Int → Proc → List Res) :
    andThen (.ret v q :: rs) k = k v q ++ andThen rs k := by
  simp [andThen]

theorem andThen_length_quiet {rs : List Res} {k : Int → Proc → List Res} {n : Nat}
    (hq : Quiet rs) (hk : ∀ v q, execAttempts q.trace = 0 → (k v q).length = n) :
    (andThen rs k).length = rs.length * n := by
  induction rs with
  | nil => simp [andThen_nil]
  | cons r rs ih =>
    obtain ⟨v, q, rfl, h0⟩ := hq r (List.mem_cons_self _ _)
    have hq2 : Quiet rs := fun x hx => hq x (List.mem_cons_of_mem _ hx)
    rw [andThen_cons_ret, List.length_append, ih hq2, hk v q h0, List.length_cons]
    ring

theorem andThen_forall_quiet {rs : List Res} {k : Int → Proc → List Res} {P : Res → Prop}
    (hq : Quiet rs) (hk : ∀ v q, execAttempts q.trace = 0 → ∀ r ∈ k v q, P r) :
    ∀ r ∈ andThen rs k, P r := by
  induction rs with
  | nil => simp [andThen_nil]
  | cons r rs ih =>
    obtain ⟨v, q, rfl, h0⟩ := hq r (List.mem_cons_self _ _)
    have hq2 : Quiet rs := fun x hx => hq x (List.mem_cons_of_mem _ hx)
    intro x hx
    rw [andThen_cons_ret, List.mem_append] at hx
    rcases hx with hx | hx
    · exact hk v q h0 x hx
    · exact ih hq2 x hx

theorem redirect_in_shape (w : World) (s : simple_command) (p : Proc)
    (hfork : ∀ h, w.forkOk h = true) (hp : execAttempts p.trace = 0) :
    Quiet (redirect_in w s p) ∧
      (redirect_in w s p).length = if s.in_.isSome then 2 else 1 := by
  unfold redirect_in
  cases hs : s.in_ with
  | none =>
    refine ⟨?_, by simp⟩
    intro x hx
    simp only [List.mem_singleton] at hx
    exact ⟨_, _, hx, hp⟩
  | some path =>
    simp only []
    rcases ho : sys_open w path .rdonly p with ⟨fd, p1⟩
    have h1 : execAttempts p1.trace = 0 := by
      have := execAttempts_open w path .rdonly p
      rw [ho] at this
      simpa [hp] using this
    simp only []
    rcases hpi : sys_pipe w (w.junk 3, w.junk 4)
      (sys_close w fd (sys_dup2 w fd STDIN (sys_fcntl_setfd w fd p1))) with ⟨r, pfd, p2⟩
    have h2 : execAttempts p2.trace = 0 := by
      have := execAttempts_pipe w (w.junk 3, w.junk 4)
        (sys_close w fd (sys_dup2 w fd STDIN (sys_fcntl_setfd w fd p1)))
      rw [hpi] at this
      simpa [execAttempts_close, execAttempts_dup2, execAttempts_fcntl, h1] using this
    simp only [sys_fork_ok w p2 (hfork _), List.flatMap_cons, List.flatMap_nil, pid_ne_zero,
      pid_pos, if_true, if_false, List.append_nil, List.singleton_append, Option.isSome_some,
      List.length_cons, List.length_nil]
    refine ⟨?_, trivial⟩
    intro x hx
    simp only [List.mem_cons, List.mem_singleton, List.not_mem_nil, or_false] at hx
    rcases hx with rfl | rfl
    · refine ⟨_, _, rfl, ?_⟩
      rw [execAttempts_close, execAttempts_close, execAttempts_dup2, execAttempts_log_fork, h2]
    · refine ⟨_, _, rfl, ?_⟩
      rw [execAttempts_close, execAttempts_close, execAttempts_dup2]
      rfl

theorem redirect_out_shape (w : World) (s : simple_command) (p : Proc)
    (hfork : ∀ h, w.forkOk h = true) (hp : execAttempts p.trace = 0) :
    Quiet (redirect_out w s p) ∧
      (redirect_out w s p).length = if s.out.isSome then 2 else 1 := by
  unfold redirect_out
  cases hs : s.out with
  | none =>
    refine ⟨?_, by simp⟩
    intro x hx
    simp only [List.mem_singleton] at hx
    exact ⟨_, _, hx, hp⟩
  | some path =>
    simp only []
    rcases ho : sys_open w path .wrAppendCreat p with ⟨fd, p1⟩
    have h1 : execAttempts p1.trace = 0 := by
      have := execAttempts_open w path .wrAppendCreat p
      rw [ho] at this
      simpa [hp] using this
    simp only []
    rcases hpi : sys_pipe w (w.junk 5, w.junk 6)
      (sys_close w fd (sys_dup2 w fd STDOUT (sys_fcntl_setfd w fd p1))) with ⟨r, pfd, p2⟩
    have h2 : execAttempts p2.trace = 0 := by
      have := execAttempts_pipe w (w.junk 5, w.junk 6)
        (sys_close w fd (sys_dup2 w fd STDOUT (sys_fcntl_setfd w fd p1)))
      rw [hpi] at this
      simpa [execAttempts_close, execAttempts_dup2, execAttempts_fcntl, h1] using this
    simp only [sys_fork_ok w p2 (hfork _), List.flatMap_cons, List.flatMap_nil, pid_ne_zero,
      pid_pos, if_true, if_false, List.append_nil, List.singleton_append, Option.isSome_some,
      List.length_cons, List.length_nil]
    refine ⟨?_, trivial⟩
    intro x hx
    simp only [List.mem_cons, List.mem_singleton, List.not_mem_nil, or_false] at hx
    rcases hx with rfl | rfl
    · refine ⟨_, _, rfl, ?_⟩
      rw [execAttempts_close, execAttempts_close, execAttempts_dup2, execAttempts_log_fork, h2]
    · refine ⟨_, _, rfl, ?_⟩
      rw [execAttempts_close, execAttempts_close, execAttempts_dup2]
      rfl

theorem redirect_err_shape (w : World) (s : simple_command) (p : Proc)
    (hfork : ∀ h, w.forkOk h = true) (hp : execAttempts p.trace = 0) :
    Quiet (redirect_err w s p) ∧
      (redirect_err w s p).length = if s.err.isSome then 2 else 1 := by
  unfold redirect_err
  cases hs : s.err with
  | none =>
    refine ⟨?_, by simp⟩
    intro x hx
    simp only [List.mem_singleton] at hx
    exact ⟨_, _, hx, hp⟩
  | some path =>
    simp only []
    rcases ho : sys_open w path .wrAppendCreat p with ⟨fd, p1⟩
    have h1 : execAttempts p1.trace = 0 := by
      have := execAttempts_open w path .wrAppendCreat p
      rw [ho] at this
      simpa [hp] using this
    simp only []
    rcases hpi : sys_pipe w (w.junk 7, w.junk 8)
      (sys_close w fd (sys_dup2 w fd STDERR (sys_fcntl_setfd w fd p1))) with ⟨r, pfd, p2⟩
    have h2 : execAttempts p2.trace = 0 := by
      have := execAttempts_pipe w (w.junk 7, w.junk 8)
        (sys_close w fd (sys_dup2 w fd STDERR (sys_fcntl_setfd w fd p1)))
      rw [hpi] at this
      simpa [execAttempts_close, execAttempts_dup2, execAttempts_fcntl, h1] using this
    simp only [sys_fork_ok w p2 (hfork _), List.flatMap_cons, List.flatMap_nil, pid_ne_zero,
      pid_pos, if_true, if_false, List.append_nil, List.singleton_append, Option.isSome_some,
      List.length_cons, List.length_nil]
    refine ⟨?_, trivial⟩
    intro x hx
    simp only [List.mem_cons, List.mem_singleton, List.not_mem_nil, or_false] at hx
    rcases hx with rfl | rfl
    · refine ⟨_, _, rfl, ?_⟩
      rw [execAttempts_close, execAttempts_close, execAttempts_dup2, execAttempts_log_fork, h2]
    · refine ⟨_, _, rfl, ?_⟩
      rw [execAttempts_close, execAttempts_close, execAttempts_dup2]
      rfl

theorem execAttempts_perror (msg : Option String) (p : Proc) :
    execAttempts (sys_perror msg p).trace = execAttempts p.trace :=
  execAttempts_log p _ rfl

theorem execAttempts_snoc_exec (t : List Event) (f : Option String) (a : List String)
    (r : Int) : execAttempts (t ++ [.execvp f a r]) = execAttempts t + 1 := by
  simp [execAttempts, List.countP_append, List.countP_cons, Event.isExec]

theorem run_and_close_shape (w : World) (s : simple_command) (a b c : Int) (p : Proc)
    (hp : execAttempts p.trace = 0) :
    ∃ r, run_and_close w s a b c p = [r] ∧ execAttempts r.trace = 1 ∧ RanOrFailed s r := by
  unfold run_and_close execute_command sys_execvp
  cases hh : s.tokens.head? with
  | none =>
    refine ⟨_, rfl, ?_, Or.inr rfl⟩
    simp only [Res.trace, Res.proc]
    rw [execAttempts_close, execAttempts_close, execAttempts_close, execAttempts_perror]
    simp only [Proc.log]
    rw [execAttempts_snoc_exec, hp]
  | some f =>
    by_cases hon : w.onPath p.cwd f = true
    · simp only [hon, if_true]
      refine ⟨_, rfl, ?_, Or.inl ⟨f, hh, rfl⟩⟩
      simp only [Res.trace, Res.proc]
      rw [execAttempts_snoc_exec, hp]
    · simp only [hon, if_false]
      refine ⟨_, rfl, ?_, Or.inr rfl⟩
      simp only [Res.trace, Res.proc]
      rw [execAttempts_close, execAttempts_close, execAttempts_close, execAttempts_perror]
      simp only [Proc.log]
      rw [execAttempts_snoc_exec, hp]

theorem execute_nonbuiltin_shape (w : World) (s : simple_command) (p : Proc)
    (hfork : ∀ h, w.forkOk h = true) (hp : execAttempts p.trace = 0) :
    (execute_nonbuiltin w s p).length = 2 ^ s.redirections ∧
    ∀ r ∈ execute_nonbuiltin w s p, execAttempts r.trace = 1 ∧ RanOrFailed s r := by
  unfold execute_nonbuiltin
  constructor
  · rw [andThen_length_quiet (redirect_in_shape w s p hfork hp).1
      (n := (if s.out.isSome then 2 else 1) * ((if s.err.isSome then 2 else 1) * 1))]
    · rw [(redirect_in_shape w s p hfork hp).2]
      unfold simple_command.redirections
      cases s.in_ <;> cases s.out <;> cases s.err <;> simp
    · intro a q hq
      rw [andThen_length_quiet (redirect_out_shape w s q hfork hq).1
        (n := (if s.err.isSome then 2 else 1) * 1)]
      · rw [(redirect_out_shape w s q hfork hq).2]
      · intro b q2 hq2
        rw [andThen_length_quiet (redirect_err_shape w s q2 hfork hq2).1 (n := 1)]
        · rw [(redirect_err_shape w s q2 hfork hq2).2]
        · intro c q3 hq3
          obtain ⟨r, hr, _⟩ := run_and_close_shape w s a b c q3 hq3
          rw [hr]; rfl
  · refine andThen_forall_quiet (P := fun r => execAttempts r.trace = 1 ∧ RanOrFailed s r)
      (redirect_in_shape w s p hfork hp).1 ?_
    intro a q hq
    refine andThen_forall_quiet (P := fun r => execAttempts r.trace = 1 ∧ RanOrFailed s r)
      (redirect_out_shape w s q hfork hq).1 ?_
    intro b q2 hq2
    refine andThen_forall_quiet (P := fun r => execAttempts r.trace = 1 ∧ RanOrFailed s r)
      (redirect_err_shape w s q2 hfork hq2).1 ?_
    intro c q3 hq3 r hr
    obtain ⟨r0, hr0, h1, h2⟩ := run_and_close_shape w s a b c q3 hq3
    rw [hr0, List.mem_singleton] at hr
    subst hr
    exact ⟨h1, h2⟩

theorem andThen_exit_length (rs : List Res) :
    (andThen rs fun result q => [sys_exit result q]).length = rs.length := by
  induction rs with
  | nil => rfl
  | cons r rs ih =>
    cases r <;> simp_all [andThen]

theorem andThen_exit_attempts (rs : List Res) :
    ∀ r ∈ andThen rs (fun result q => [sys_exit result q]),
      ∃ r0 ∈ rs, execAttempts r.trace = execAttempts r0.trace := by
  induction rs with
  | nil => simp [andThen]
  | cons r0 rs ih =>
    intro r hr
    have hsplit : andThen (r0 :: rs) (fun result q => [sys_exit result q])
        = andThen [r0] (fun result q => [sys_exit result q])
          ++ andThen rs (fun result q => [sys_exit result q]) := by
      simp [andThen]
    rw [hsplit, List.mem_append] at hr
    rcases hr with hr | hr
    · refine ⟨r0, List.mem_cons_self _ _, ?_⟩
      cases r0 with
      | ret v q =>
        simp only [andThen, List.flatMap_cons, List.flatMap_nil, List.append_nil,
          List.mem_singleton] at hr
        subst hr
        exact execAttempts_log q _ rfl
      | exited v q =>
        simp only [andThen, List.flatMap_cons, List.flatMap_nil, List.append_nil,
          List.mem_singleton] at hr
        rw [hr]
      | execd f a q =>
        simp only [andThen, List.flatMap_cons, List.flatMap_nil, List.append_nil,
          List.mem_singleton] at hr
        rw [hr]
      | crashed q =>
        simp only [andThen, List.flatMap_cons, List.flatMap_nil, List.append_nil,
          List.mem_singleton] at hr
        rw [hr]
    · obtain ⟨x, hx, hxe⟩ := ih r hr
      exact ⟨x, List.mem_cons_of_mem _ hx, hxe⟩

theorem sum_map_ones {α : Type} (l : List α) (f : α → Nat) (h : ∀ x ∈ l, f x = 1) :
    (l.map f).sum = l.length := by
  induction l with
  | nil => rfl
  | cons a l ih =>
    have ha := h a (List.mem_cons_self _ _)
    have hl := ih fun x hx => h x (List.mem_cons_of_mem _ hx)
    simp only [List.map_cons, List.sum_cons, List.length_cons, ha, hl]
    omega

/-- What `execute_simple_command` leaves behind for a command with
`builtin = 0` when process creation succeeds: the caller, back from its
`wait`, and the processes of the child. -/
theorem execute_simple_command_unfold (w : World) (cmd : simple_command) (p : Proc)
    (hb : cmd.builtin = 0) (hfork : ∀ h, w.forkOk h = true) :
    execute_simple_command w cmd p
      = .ret 0 (sys_wait w (p.log (.fork ((w.pid p.trace : Int) + 1)))).2
        :: andThen (execute_nonbuiltin w cmd { p with trace := [] })
            (fun result q => [sys_exit result q]) := by
  simp [execute_simple_command, hb, sys_fork, hfork, pid_pos]

/-! ## The calling process through `execute_nonbuiltin` -/

theorem Continues.refl (p : Proc) : Continues p p := ⟨rfl, fun _ h => h⟩

theorem Continues.trans {p q r : Proc} (h1 : Continues p q) (h2 : Continues q r) :
    Continues p r :=
  ⟨h2.1.trans h1.1, fun _ h => h2.2 (h1.2 h)⟩

theorem continues_log (p : Proc) (e : Event) : Continues p (p.log e) :=
  ⟨rfl, fun _ h => List.mem_append_left _ h⟩

theorem continues_close (w : World) (fd : Int) (p : Proc) : Continues p (sys_close w fd p) := by
  unfold sys_close
  split
  · exact ⟨rfl, fun _ h => List.mem_append_left _ h⟩
  · exact continues_log p _

theorem continues_fcntl (w : World) (fd : Int) (p : Proc) :
    Continues p (sys_fcntl_setfd w fd p) := by
  unfold sys_fcntl_setfd
  split
  · exact ⟨rfl, fun _ h => List.mem_append_left _ h⟩
  · exact continues_log p _

theorem continues_dup2 (w : World) (a b : Int) (p : Proc) : Continues p (sys_dup2 w a b p) := by
  unfold sys_dup2
  split
  · exact continues_log p _
  · split
    · split
      · exact continues_log p _
      · exact ⟨rfl, fun _ h => List.mem_append_left _ h⟩
    · exact continues_log p _

theorem continues_open (w : World) (path : String) (m : OpenMode) (p : Proc) :
    Continues p (sys_open w path m p).2 := by
  unfold sys_open
  split
  · split
    · exact ⟨rfl, fun _ h => List.mem_append_left _ h⟩
    · exact continues_log p _
  · exact continues_log p _

theorem continues_pipe (w : World) (pfd : Int × Int) (p : Proc) :
    Continues p (sys_pipe w pfd p).2.2 := by
  unfold sys_pipe
  split
  · exact continues_log p _
  · simp only []
    split
    · exact continues_log p _
    · exact ⟨rfl, fun _ h => List.mem_append_left _ h⟩

theorem failed_open_logged (w : World) (path : String) (m : OpenMode) (p : Proc)
    (h : openAllowed w p path m = false) :
    Event.open_ path m (-1) ∈ (sys_open w path m p).2.trace := by
  simp [sys_open, h, Proc.log]

theorem openAllowed_continues {w : World} {p q : Proc} (h : Continues p q) (path : String)
    (m : OpenMode) : openAllowed w q path m = openAllowed w p path m := by
  cases m <;> simp [openAllowed, h.1]

theorem redirect_in_head (w : World) (s : simple_command) (p : Proc)
    (hfork : ∀ h, w.forkOk h = true) :
    ∃ v q rest, redirect_in w s p = .ret v q :: rest ∧ Continues p q ∧
      ∀ path, s.in_ = some path → openAllowed w p path .rdonly = false →
        Event.open_ path .rdonly (-1) ∈ q.trace := by
  unfold redirect_in
  cases hs : s.in_ with
  | none => exact ⟨_, p, [], rfl, Continues.refl p, fun _ h => Option.noConfusion h⟩
  | some path =>
    simp only []
    have hc1 := continues_open w path .rdonly p
    have hlog := failed_open_logged w path .rdonly p
    rcases ho : sys_open w path .rdonly p with ⟨fd, p1⟩
    rw [ho] at hc1 hlog
    simp only [] at hc1 hlog ⊢
    have hc2 := continues_pipe w (w.junk 3, w.junk 4)
      (sys_close w fd (sys_dup2 w fd STDIN (sys_fcntl_setfd w fd p1)))
    rcases hpi : sys_pipe w (w.junk 3, w.junk 4)
      (sys_close w fd (sys_dup2 w fd STDIN (sys_fcntl_setfd w fd p1))) with ⟨r, pfd, p2⟩
    rw [hpi] at hc2
    simp only [] at hc2 ⊢
    simp only [sys_fork_ok w p2 (hfork _), List.flatMap_cons, List.flatMap_nil, pid_ne_zero,
      pid_pos, if_true, if_false, List.append_nil, List.singleton_append]
    have hc : Continues p1 (sys_close w pfd.1 (sys_close w pfd.2 (sys_dup2 w pfd.1 STDIN
        (p2.log (.fork ((w.pid p2.trace : Int) + 1)))))) :=
      ((continues_fcntl w fd p1).trans
        ((continues_dup2 w fd STDIN _).trans (continues_close w fd _))).trans
        (hc2.trans ((continues_log p2 _).trans ((continues_dup2 w _ _ _).trans
          ((continues_close w _ _).trans (continues_close w _ _)))))
    refine ⟨_, _, _, rfl, hc1.trans hc, ?_⟩
    intro path2 hp2 hbad
    injection hp2 with hp2
    subst hp2
    exact hc.2 (hlog hbad)

theorem redirect_out_head (w : World) (s : simple_command) (p : Proc)
    (hfork : ∀ h, w.forkOk h = true) :
    ∃ v q rest, redirect_out w s p = .ret v q :: rest ∧ Continues p q ∧
      ∀ path, s.out = some path → openAllowed w p path .wrAppendCreat = false →
        Event.open_ path .wrAppendCreat (-1) ∈ q.trace := by
  unfold redirect_out
  cases hs : s.out with
  | none => exact ⟨_, p, [], rfl, Continues.refl p, fun _ h => Option.noConfusion h⟩
  | some path =>
    simp only []
    have hc1 := continues_open w path .wrAppendCreat p
    have hlog := failed_open_logged w path .wrAppendCreat p
    rcases ho : sys_open w path .wrAppendCreat p with ⟨fd, p1⟩
    rw [ho] at hc1 hlog
    simp only [] at hc1 hlog ⊢
    have hc2 := continues_pipe w (w.junk 5, w.junk 6)
      (sys_close w fd (sys_dup2 w fd STDOUT (sys_fcntl_setfd w fd p1)))
    rcases hpi : sys_pipe w (w.junk 5, w.junk 6)
      (sys_close w fd (sys_dup2 w fd STDOUT (sys_fcntl_setfd w fd p1))) with ⟨r, pfd, p2⟩
    rw [hpi] at hc2
    simp only [] at hc2 ⊢
    simp only [sys_fork_ok w p2 (hfork _), List.flatMap_cons, List.flatMap_nil, pid_ne_zero,
      pid_pos, if_true, if_false, List.append_nil, List.singleton_append]
    have hc : Continues p1 (sys_close w pfd.2 (sys_close w pfd.1 (sys_dup2 w pfd.2 STDOUT
        (p2.log (.fork ((w.pid p2.trace : Int) + 1)))))) :=
      ((continues_fcntl w fd p1).trans
        ((continues_dup2 w fd STDOUT _).trans (continues_close w fd _))).trans
        (hc2.trans ((continues_log p2 _).trans ((continues_dup2 w _ _ _).trans
          ((continues_close w _ _).trans (continues_close w _ _)))))
    refine ⟨_, _, _, rfl, hc1.trans hc, ?_⟩
    intro path2 hp2 hbad
    injection hp2 with hp2
    subst hp2
    exact hc.2 (hlog hbad)

theorem redirect_err_head (w : World) (s : simple_command) (p : Proc)
    (hfork : ∀ h, w.forkOk h = true) :
    ∃ v q rest, redirect_err w s p = .ret v q :: rest ∧ Continues p q ∧
      ∀ path, s.err = some path → openAllowed w p path .wrAppendCreat = false →
        Event.open_ path .wrAppendCreat (-1) ∈ q.trace := by
  unfold redirect_err
  cases hs : s.err with
  | none => exact ⟨_, p, [], rfl, Continues.refl p, fun _ h => Option.noConfusion h⟩
  | some path =>
    simp only []
    have hc1 := continues_open w path .wrAppendCreat p
    have hlog := failed_open_logged w path .wrAppendCreat p
    rcases ho : sys_open w path .wrAppendCreat p with ⟨fd, p1⟩
    rw [ho] at hc1 hlog
    simp only [] at hc1 hlog ⊢
    have hc2 := continues_pipe w (w.junk 7, w.junk 8)
      (sys_close w fd (sys_dup2 w fd STDERR (sys_fcntl_setfd w fd p1)))
    rcases hpi : sys_pipe w (w.junk 7, w.junk 8)
      (sys_close w fd (sys_dup2 w fd STDERR (sys_fcntl_setfd w fd p1))) with ⟨r, pfd, p2⟩
    rw [hpi] at hc2
    simp only [] at hc2 ⊢
    simp only [sys_fork_ok w p2 (hfork _), List.flatMap_cons, List.flatMap_nil, pid_ne_zero,
      pid_pos, if_true, if_false, List.append_nil, List.singleton_append]
    have hc : Continues p1 (sys_close w pfd.2 (sys_close w pfd.1 (sys_dup2 w pfd.2 STDERR
        (p2.log (.fork ((w.pid p2.trace : Int) + 1)))))) :=
      ((continues_fcntl w fd p1).trans
        ((continues_dup2 w fd STDERR _).trans (continues_close w fd _))).trans
        (hc2.trans ((continues_log p2 _).trans ((continues_dup2 w _ _ _).trans
          ((continues_close w _ _).trans (continues_close w _ _)))))
    refine ⟨_, _, _, rfl, hc1.trans hc, ?_⟩
    intro path2 hp2 hbad
    injection hp2 with hp2
    subst hp2
    exact hc.2 (hlog hbad)

theorem run_and_close_trace (w : World) (s : simple_command) (a b c : Int) (p : Proc) :
    ∃ r, run_and_close w s a b c p = [r] ∧ p.trace ⊆ r.trace := by
  unfold run_and_close execute_command sys_execvp
  have hfail : ∀ f : Option String,
      p.trace ⊆ (sys_close w c (sys_close w b (sys_close w a
        (sys_perror f (p.log (.execvp f s.tokens (-1))))))).trace :=
    fun f => ((continues_log p _).trans ((continues_log _ _).trans
      ((continues_close w a _).trans ((continues_close w b _).trans
        (continues_close w c _))))).2
  cases hh : s.tokens.head? with
  | none => exact ⟨_, rfl, hfail none⟩
  | some f =>
    by_cases hon : w.onPath p.cwd f = true
    · simp only [hon, if_true]
      exact ⟨_, rfl, fun _ h => List.mem_append_left _ h⟩
    · simp only [hon, if_false]
      exact ⟨_, rfl, hfail (some f)⟩

/-- With a redirection target that cannot be opened, the calling process
itself comes out of `execute_nonbuiltin` first, with the failed `open` in its
history. -/
theorem execute_nonbuiltin_head (w : World) (s : simple_command) (p : Proc)
    (hfork : ∀ h, w.forkOk h = true) (hbad : hasUnopenableTarget w s p) :
    ∃ r rest path mode, execute_nonbuiltin w s p = r :: rest ∧
      Event.open_ path mode (-1) ∈ r.trace := by
  obtain ⟨a, q1, rest1, e1, c1, o1⟩ := redirect_in_head w s p hfork
  obtain ⟨b, q2, rest2, e2, c2, o2⟩ := redirect_out_head w s q1 hfork
  obtain ⟨c, q3, rest3, e3, c3, o3⟩ := redirect_err_head w s q2 hfork
  obtain ⟨r, hr, ht⟩ := run_and_close_trace w s a b c q3
  have heq : execute_nonbuiltin w s p = r :: (
      (andThen rest3 fun filedesc_err q => run_and_close w s a b filedesc_err q)
      ++ (andThen rest2 fun filedesc_out q =>
          andThen (redirect_err w s q) fun filedesc_err q =>
            run_and_close w s a filedesc_out filedesc_err q)
      ++ (andThen rest1 fun filedesc_in q =>
          andThen (redirect_out w s q) fun filedesc_out q =>
            andThen (redirect_err w s q) fun filedesc_err q =>
              run_and_close w s filedesc_in filedesc_out filedesc_err q)) := by
    unfold execute_nonbuiltin
    rw [e1, andThen_cons_ret, e2, andThen_cons_ret, e3, andThen_cons_ret, hr]
    simp
  rcases hbad with ⟨path, hp, hb⟩ | ⟨path, hp, hb⟩ | ⟨path, hp, hb⟩
  · exact ⟨r, _, path, .rdonly, heq, ht (c3.2 (c2.2 (o1 path hp hb)))⟩
  · refine ⟨r, _, path, .wrAppendCreat, heq, ht (c3.2 (o2 path hp ?_))⟩
    rw [openAllowed_continues c1]; exact hb
  · refine ⟨r, _, path, .wrAppendCreat, heq, ht (o3 path hp ?_)⟩
    rw [openAllowed_continues (c1.trans c2)]; exact hb

/-- C9 (as amended): for a command with a redirection target that cannot be
opened, when process creation succeeds, `execute_nonbuiltin` started in a
process that has not called `execvp` does not stop at the failed `open`, whose
result it never checks: the calling process, with the `open` that returned
-1 in its history, goes on and calls `execvp` for the command, and so does
every other process that runs through the function, each exactly once. None
of them terminates inside `execute_nonbuiltin`; each either runs the program
or is back with -1. -/
theorem unopenable_redirection_still_execs (w : World) (s : simple_command) (p : Proc)
    (hfork : ∀ h, w.forkOk h = true) (hp : execAttempts p.trace = 0)
    (hbad : hasUnopenableTarget w s p) :
    (∃ r rest path mode, execute_nonbuiltin w s p = r :: rest ∧
      Event.open_ path mode (-1) ∈ r.trace ∧ execAttempts r.trace = 1 ∧ RanOrFailed s r) ∧
    ∀ r ∈ execute_nonbuiltin w s p, execAttempts r.trace = 1 ∧ RanOrFailed s r := by
  have hsh := execute_nonbuiltin_shape w s p hfork hp
  obtain ⟨r, rest, path, mode, heq, hopen⟩ := execute_nonbuiltin_head w s p hfork hbad
  have hr := hsh.2 r (by rw [heq]; exact List.mem_cons_self _ _)
  exact ⟨⟨r, rest, path, mode, heq, hopen, hr.1, hr.2⟩, hsh.2⟩

/-- Witness of C9 (as amended): `ls < missing.txt` in the sample world. -/
theorem unopenable_redirection_still_execs_witness :
    hasUnopenableTarget sampleWorld lsFromMissing shellProc ∧
    ∀ r ∈ execute_nonbuiltin sampleWorld lsFromMissing shellProc,
      execAttempts r.trace = 1 ∧ RanOrFailed lsFromMissing r :=
  have hbad : hasUnopenableTarget sampleWorld lsFromMissing shellProc :=
    Or.inl ⟨"missing.txt", rfl, by decide⟩
  ⟨hbad, (unopenable_redirection_still_execs sampleWorld lsFromMissing shellProc
    (fun _ => rfl) rfl hbad).2⟩

/-- Counterexample to C9 as stated: for `ls < missing.txt` the `open` returns
-1, and still both processes that run through `execute_nonbuiltin` call
`execvp` and have their image replaced by `ls`; neither terminates with a
non-zero status. -/
theorem missing_input_file_still_runs_program :
    (execute_nonbuiltin sampleWorld lsFromMissing shellProc).map
        (fun r => (r.outcome, r.trace.head?, execAttempts r.trace))
      = [(.execd "ls" ["ls"], some (.open_ "missing.txt" .rdonly (-1)), 1),
         (.execd "ls" ["ls"], some (.dup2 4 1 1), 1)] := by
  decide

/-! ## Processes and `execvp` calls of a simple command -/

theorem run_and_close_execs_tokens (w : World) (s : simple_command) (a b c : Int)
    (p : Proc) :
    ∀ r ∈ run_and_close w s a b c p,
      ∃ ret, Event.execvp s.tokens.head? s.tokens ret ∈ r.trace := by
  have key : ∃ r, run_and_close w s a b c p = [r] ∧
      ∃ ret, Event.execvp s.tokens.head? s.tokens ret ∈ r.trace := by
    unfold run_and_close execute_command sys_execvp
    have hfail : ∀ f : Option String, Event.execvp f s.tokens (-1) ∈
        (sys_close w c (sys_close w b (sys_close w a
          (sys_perror f (p.log (.execvp f s.tokens (-1))))))).trace :=
      fun f => ((continues_log _ _).trans ((continues_close w a _).trans
        ((continues_close w b _).trans (continues_close w c _)))).2
          (List.mem_append_right _ (List.mem_singleton_self _))
    cases hh : s.tokens.head? with
    | none => exact ⟨_, rfl, -1, hfail none⟩
    | some f =>
      by_cases hon : w.onPath p.cwd f = true
      · simp only [hon, if_true]
        exact ⟨_, rfl, 0, List.mem_append_right _ (List.mem_singleton_self _)⟩
      · simp only [hon, if_false]
        exact ⟨_, rfl, -1, hfail (some f)⟩
  obtain ⟨r0, hr0, hret⟩ := key
  intro r hr
  rw [hr0, List.mem_singleton] at hr
  rw [hr]
  exact hret

theorem execute_nonbuiltin_execs_tokens (w : World) (s : simple_command) (p : Proc)
    (hfork : ∀ h, w.forkOk h = true) (hp : execAttempts p.trace = 0) :
    ∀ r ∈ execute_nonbuiltin w s p,
      ∃ ret, Event.execvp s.tokens.head? s.tokens ret ∈ r.trace := by
  unfold execute_nonbuiltin
  refine andThen_forall_quiet
    (P := fun r => ∃ ret, Event.execvp s.tokens.head? s.tokens ret ∈ r.trace)
    (redirect_in_shape w s p hfork hp).1 ?_
  intro a q hq
  refine andThen_forall_quiet
    (P := fun r => ∃ ret, Event.execvp s.tokens.head? s.tokens ret ∈ r.trace)
    (redirect_out_shape w s q hfork hq).1 ?_
  intro b q2 hq2
  refine andThen_forall_quiet
    (P := fun r => ∃ ret, Event.execvp s.tokens.head? s.tokens ret ∈ r.trace)
    (redirect_err_shape w s q2 hfork hq2).1 ?_
  intro c q3 _
  exact run_and_close_execs_tokens w s a b c q3

theorem andThen_exit_trace (rs : List Res) :
    ∀ r ∈ andThen rs (fun result q => [sys_exit result q]),
      ∃ r0 ∈ rs, r0.trace ⊆ r.trace := by
  induction rs with
  | nil => simp [andThen]
  | cons r0 rs ih =>
    intro r hr
    have hsplit : andThen (r0 :: rs) (fun result q => [sys_exit result q])
        = andThen [r0] (fun result q => [sys_exit result q])
          ++ andThen rs (fun result q => [sys_exit result q]) := by
      simp [andThen]
    rw [hsplit, List.mem_append] at hr
    rcases hr with hr | hr
    · refine ⟨r0, List.mem_cons_self _ _, ?_⟩
      cases r0 with
      | ret v q =>
        simp only [andThen, List.flatMap_cons, List.flatMap_nil, List.append_nil,
          List.mem_singleton] at hr
        subst hr
        exact (continues_log q _).2
      | exited v q =>
        simp only [andThen, List.flatMap_cons, List.flatMap_nil, List.append_nil,
          List.mem_singleton] at hr
        rw [hr]; exact fun _ h => h
      | execd f a q =>
        simp only [andThen, List.flatMap_cons, List.flatMap_nil, List.append_nil,
          List.mem_singleton] at hr
        rw [hr]; exact fun _ h => h
      | crashed q =>
        simp only [andThen, List.flatMap_cons, List.flatMap_nil, List.append_nil,
          List.mem_singleton] at hr
        rw [hr]; exact fun _ h => h
    · obtain ⟨x, hx, hxe⟩ := ih r hr
      exact ⟨x, List.mem_cons_of_mem _ hx, hxe⟩

/-- A history with exactly one `execvp` call, which contains the call `e`, has
`e` as its only `execvp` call. -/
theorem only_exec_call (t : List Event) (e : Event) (hone : execAttempts t = 1)
    (he : e ∈ t) (hx : e.isExec = true) : t.filter Event.isExec = [e] := by
  have hmem : e ∈ t.filter Event.isExec := List.mem_filter.mpr ⟨he, hx⟩
  have hlen : (t.filter Event.isExec).length = 1 := by
    rw [← List.countP_eq_length_filter]; exact hone
  match hf : t.filter Event.isExec, hlen, hmem with
  | [x], _, hm =>
    rw [List.mem_singleton] at hm
    rw [hm]

/-- C2 (as amended): for a command with `builtin = 0`, when process creation
succeeds, `execute_simple_command` leaves behind the caller, which calls no
`execvp` itself, and 2^k further processes, where k counts the redirections
present among `in`, `out`, `err` (each block of `execute_nonbuiltin` forks
once more in every process that reaches it). Each of those 2^k processes
calls `execvp` exactly once, and that one call is for `tokens[0]` with
`tokens` as arguments, which makes 2^k calls in all. Only without
redirection is that one child and one `execvp`. -/
theorem simple_command_process_count (w : World) (cmd : simple_command) (p : Proc)
    (hb : cmd.builtin = 0) (hfork : ∀ h, w.forkOk h = true) :
    ∃ (q : Proc) (rest : List Res),
      execute_simple_command w cmd p = .ret 0 q :: rest ∧
      q.trace.filter Event.isExec = p.trace.filter Event.isExec ∧
      rest.length = 2 ^ cmd.redirections ∧
      (∀ r ∈ rest, ∃ ret,
        r.trace.filter Event.isExec = [.execvp cmd.tokens.head? cmd.tokens ret]) ∧
      (execute_simple_command w cmd p).length = 1 + 2 ^ cmd.redirections ∧
      totalExecAttempts (execute_simple_command w cmd p)
        = execAttempts p.trace + 2 ^ cmd.redirections ∧
      (cmd.redirections = 0 →
        (execute_simple_command w cmd p).length = 2 ∧
        totalExecAttempts (execute_simple_command w cmd p) = execAttempts p.trace + 1) := by
  have hsh := execute_nonbuiltin_shape w cmd { p with trace := [] } hfork rfl
  have htok := execute_nonbuiltin_execs_tokens w cmd { p with trace := [] } hfork rfl
  have hun := execute_simple_command_unfold w cmd p hb hfork
  have hlen : (execute_simple_command w cmd p).length = 1 + 2 ^ cmd.redirections := by
    rw [hun, List.length_cons, andThen_exit_length, hsh.1]
    omega
  have htot : totalExecAttempts (execute_simple_command w cmd p)
      = execAttempts p.trace + 2 ^ cmd.redirections := by
    rw [hun]
    unfold totalExecAttempts
    rw [List.map_cons, List.sum_cons, sum_map_ones, andThen_exit_length, hsh.1]
    · congr 1
      simp only [Res.trace, Res.proc, sys_wait]
      rw [execAttempts_log _ (.wait _) rfl, execAttempts_log_fork]
    · intro r hr
      obtain ⟨r0, hr0, he⟩ := andThen_exit_attempts _ r hr
      rw [he]
      exact (hsh.2 r0 hr0).1
  refine ⟨_, _, hun, ?_, ?_, ?_, hlen, htot, ?_⟩
  · simp [sys_wait, Proc.log, List.filter_append, Event.isExec]
  · rw [andThen_exit_length, hsh.1]
  · intro r hr
    obtain ⟨r0, hr0, he⟩ := andThen_exit_attempts _ r hr
    obtain ⟨r1, hr1, hsub⟩ := andThen_exit_trace _ r hr
    obtain ⟨ret, hret⟩ := htok r1 hr1
    exact ⟨ret, only_exec_call r.trace _ (by rw [he]; exact (hsh.2 r0 hr0).1)
      (hsub hret) rfl⟩
  · intro h0
    rw [hlen, htot, h0]
    simp

/-- Witness of C2 (as amended): `ls < in.txt` from the interactive process
leaves the caller and two more processes, each with one `execvp` call, for
`ls`. -/
theorem simple_command_process_count_witness :
    ∃ (q : Proc) (rest : List Res),
      execute_simple_command sampleWorld lsFromFile shellProc = .ret 0 q :: rest ∧
      rest.length = 2 ^ 1 ∧
      ∀ r ∈ rest, ∃ ret, r.trace.filter Event.isExec = [.execvp (some "ls") ["ls"] ret] :=
  have ⟨q, rest, h, _, hl, he, _⟩ :=
    simple_command_process_count sampleWorld lsFromFile shellProc rfl (fun _ => rfl)
  ⟨q, rest, h, hl, he⟩

/-- Counterexample to C2 as stated: `ls < in.txt`, whose input file opens,
leaves behind the caller and two processes, not one, and both call `execvp`
for `ls`. -/
theorem redirection_forks_again :
    (execute_simple_command sampleWorld lsFromFile shellProc).map Res.outcome
      = [.ret 0, .execd "ls" ["ls"], .execd "ls" ["ls"]] ∧
    totalExecAttempts (execute_simple_command sampleWorld lsFromFile shellProc) = 2 := by
  decide

end Shell
